import Mathlib

/-!
Verification development for the worker-script generation pipeline and the
invocation transport of the workers-demo repository
(`src/lib/sandbox/client.ts` and `src/app/api/workers/[id]/invoke/[fn]/route.ts`).

Source text is modelled as `List Char`.  The regular-expression scans used by
the code are embedded as deterministic matchers: each pattern has disjoint
follow sets at every greedy repetition (a whitespace run is never followed by a
whitespace-accepting atom, a word-character run is never followed by a
word-character-accepting atom, a negated character class is always terminated
by a character it excludes), so greedy matching without backtracking coincides
with the JavaScript regex semantics; the optional groups of the patterns are
handled with an explicit ordered alternative (group first, empty second), which
is the JavaScript priority.
-/

namespace WorkersDemo

/-- JavaScript `\s` (ASCII part; the only part the scanned sources contain). -/
def isWS (c : Char) : Bool :=
  c = ' ' || c = '\t' || c = '\n' || c = '\r' || c = '\x0b' || c = '\x0c'

/-- JavaScript `\w`, that is `[A-Za-z0-9_]`. -/
def isWordChar (c : Char) : Bool :=
  ('a' ≤ c && c ≤ 'z') || ('A' ≤ c && c ≤ 'Z') || ('0' ≤ c && c ≤ '9') || c = '_'

/-- Match a literal character sequence at the head, returning the remainder. -/
def dropLit : List Char → List Char → Option (List Char)
  | [], s => some s
  | _ :: _, [] => none
  | c :: p, d :: s => if d = c then dropLit p s else none

/-- `\s+` (greedy). -/
def wsPlus : List Char → Option (List Char)
  | [] => none
  | c :: rest => if isWS c then some (rest.dropWhile isWS) else none

/-- `[class]+` (greedy): the captured run and the remainder. -/
def takeClass1 (p : Char → Bool) : List Char → Option (List Char × List Char)
  | [] => none
  | c :: rest =>
    if p c then some (c :: rest.takeWhile p, rest.dropWhile p) else none

/-- A single expected character. -/
def expectChar (c : Char) : List Char → Option (List Char)
  | [] => none
  | d :: rest => if d = c then some rest else none

/-- One attempt of `export\s+(?:async\s+)?function\s+(\w+)\s*\(` anchored at
the head of `s`; returns the captured name and the remainder after the match. -/
def tryExportFn (s : List Char) : Option (String × List Char) := do
  let s1 ← dropLit ("export".data) s
  let s2 ← wsPlus s1
  let s3 ← (do
      let a ← dropLit ("async".data) s2
      let b ← wsPlus a
      dropLit ("function".data) b) <|> dropLit ("function".data) s2
  let s4 ← wsPlus s3
  let (nm, s5) ← takeClass1 isWordChar s4
  let s6 ← expectChar '(' (s5.dropWhile isWS)
  pure (String.mk nm, s6)

/-- One attempt of `export\s+const\s+(\w+)\s*=\s*(?:async\s*)?\(` anchored at
the head of `s`. -/
def tryExportArrow (s : List Char) : Option (String × List Char) := do
  let s1 ← dropLit ("export".data) s
  let s2 ← wsPlus s1
  let s3 ← dropLit ("const".data) s2
  let s4 ← wsPlus s3
  let (nm, s5) ← takeClass1 isWordChar s4
  let s6 ← expectChar '=' (s5.dropWhile isWS)
  let s7 := s6.dropWhile isWS
  let s8 ← (do
      let a ← dropLit ("async".data) s7
      expectChar '(' (a.dropWhile isWS)) <|> expectChar '(' s7
  pure (String.mk nm, s8)

/-- One attempt of `export\s+const\s+(\w+)\s*=\s*(?:async\s+)?function`
anchored at the head of `s`. -/
def tryExportConstFn (s : List Char) : Option (String × List Char) := do
  let s1 ← dropLit ("export".data) s
  let s2 ← wsPlus s1
  let s3 ← dropLit ("const".data) s2
  let s4 ← wsPlus s3
  let (nm, s5) ← takeClass1 isWordChar s4
  let s6 ← expectChar '=' (s5.dropWhile isWS)
  let s7 := s6.dropWhile isWS
  let s8 ← (do
      let a ← dropLit ("async".data) s7
      let b ← wsPlus a
      dropLit ("function".data) b) <|> dropLit ("function".data) s7
  pure (String.mk nm, s8)

/-- A `g`-flagged capture scan: try the matcher at every position left to
right, continuing after the end of each match (the JavaScript `exec` loop with
`lastIndex` advancing to the end of each match). -/
def scanCapt (m : List Char → Option (String × List Char)) :
    Nat → List Char → List String
  | 0, _ => []
  | _ + 1, [] => []
  | fuel + 1, c :: rest =>
    match m (c :: rest) with
    | some (nm, r) =>
      if r.length < rest.length + 1 then nm :: scanCapt m fuel r
      else nm :: scanCapt m fuel rest
    | none => scanCapt m fuel rest

/-- `[...new Set(l)]`: keep the first occurrence of each element (JavaScript
`Set` insertion order), threading the set of already-seen elements. -/
def dedupFirst (seen : List String) : List String → List String
  | [] => []
  | x :: xs =>
    if x ∈ seen then dedupFirst seen xs else x :: dedupFirst (x :: seen) xs

/-- Keep-first deduplication stated declaratively, with no accumulator: keep
each head and delete every later duplicate of it.  This is the form of words
of the specification ("duplicates collapse to one entry", "keeping the first
occurrence"); `dedupFirst` is proven extensionally equal to it. -/
def keepFirsts : List String → List String
  | [] => []
  | x :: xs => x :: keepFirsts (xs.filter (fun y => !(y == x)))
termination_by l => l.length
decreasing_by
  simp only [List.length_cons]
  exact Nat.lt_succ_of_le (List.length_filter_le _ _)

/-- The three scans of `extractFunctionNames` (src/lib/sandbox/client.ts), in
the order the code runs them, concatenated. -/
def extractScans (code : String) : List String :=
  let d := code.data
  scanCapt tryExportFn d.length d ++ scanCapt tryExportArrow d.length d ++
    scanCapt tryExportConstFn d.length d

/-- `extractFunctionNames` (src/lib/sandbox/client.ts): three independent
regex scans run to exhaustion, concatenated in scan order, then deduplicated
preserving first insertion (JavaScript `Set` iteration order). -/
def extractFunctionNames (code : String) : List String :=
  dedupFirst [] (extractScans code)

/-- A `g`-flagged replace scan: at each position try the matcher; on a match
emit its replacement and continue after the match, otherwise copy one
character (JavaScript `String.replace` with a global regex).  Every matcher
below consumes at least one character; the length guard only serves
termination. -/
def scanRw (m : List Char → Option (List Char × List Char)) :
    Nat → List Char → List Char
  | 0, s => s
  | _ + 1, [] => []
  | fuel + 1, c :: rest =>
    match m (c :: rest) with
    | some (repl, r) =>
      if r.length < rest.length + 1 then repl ++ scanRw m fuel r
      else c :: scanRw m fuel rest
    | none => c :: scanRw m fuel rest

/-- The `m`-flagged variant: the matcher is only tried where `^` asserts, that
is at the start of the text or right after a newline of the source; after a
match the flag is recomputed from the last consumed source character. -/
def scanRwA (m : List Char → Option (List Char × List Char)) :
    Nat → Bool → List Char → List Char
  | 0, _, s => s
  | _ + 1, _, [] => []
  | fuel + 1, atLS, c :: rest =>
    match (if atLS then m (c :: rest) else none) with
    | some (repl, r) =>
      if r.length < rest.length + 1 then
        repl ++ scanRwA m fuel
          (((c :: rest).take (rest.length + 1 - r.length)).getLast? == some '\n') r
      else c :: scanRwA m fuel (c == '\n') rest
    | none => c :: scanRwA m fuel (c == '\n') rest

/-- Consume `[\s\S]*?` lazily up to and through the first occurrence of
`stop`, returning the remainder. -/
def upThrough (stop : List Char) : List Char → Option (List Char)
  | [] => dropLit stop []
  | c :: rest =>
    match dropLit stop (c :: rest) with
    | some r => some r
    | none => upThrough stop rest

/-- Rule 1 matcher, `^\s*interface\s+\w+\s*\{[\s\S]*?\n\}` (removed). -/
def tryInterface (s : List Char) : Option (List Char × List Char) := do
  let s1 ← dropLit ("interface".data) (s.dropWhile isWS)
  let s2 ← wsPlus s1
  let (_, s3) ← takeClass1 isWordChar s2
  let s4 ← expectChar '\x7b' (s3.dropWhile isWS)
  let s5 ← upThrough ('\n' :: '\x7d' :: []) s4
  pure ([], s5)

/-- Rule 2 matcher, `^\s*type\s+\w+\s*=\s*[^;]+;` (removed).  After the `=`,
`\s*[^;]+;` matches exactly when the first semicolon sits at index one or
later (`[^;]` also covers whitespace, so only the combined length matters). -/
def tryTypeAlias (s : List Char) : Option (List Char × List Char) := do
  let s1 ← dropLit ("type".data) (s.dropWhile isWS)
  let s2 ← wsPlus s1
  let (_, s3) ← takeClass1 isWordChar s2
  let s4 ← expectChar '=' (s3.dropWhile isWS)
  match s4 with
  | [] => none
  | c :: rest =>
    if c == ';' then none
    else do
      let r ← upThrough (';' :: []) rest
      pure ([], r)

/-- Rule 3 matcher, `import\s+type\s+[^;]+;` (removed).  After `type`, the
`\s+[^;]+;` part matches exactly when the next character is whitespace and the
first semicolon sits at index two or later (whitespace also matches `[^;]`,
so the two runs only constrain the combined length). -/
def tryImportType (s : List Char) : Option (List Char × List Char) := do
  let s1 ← dropLit ("import".data) s
  let s2 ← wsPlus s1
  let s3 ← dropLit ("type".data) s2
  match s3 with
  | c1 :: c2 :: rest =>
    if isWS c1 && !(c2 == ';') then do
      let r ← upThrough (';' :: []) (c2 :: rest)
      pure ([], r)
    else none
  | _ => none

/-- Rule 4 matcher, `\{\s*type\s+(\w+)` with replacement `{ $1`. -/
def tryBraceType (s : List Char) : Option (List Char × List Char) := do
  let s1 ← expectChar '\x7b' s
  let s2 ← dropLit ("type".data) (s1.dropWhile isWS)
  let s3 ← wsPlus s2
  let (nm, s4) ← takeClass1 isWordChar s3
  pure ('\x7b' :: ' ' :: nm, s4)

/-- Rule 5 matcher, `,\s*type\s+(\w+)` with replacement `, $1`. -/
def tryCommaType (s : List Char) : Option (List Char × List Char) := do
  let s1 ← expectChar ',' s
  let s2 ← dropLit ("type".data) (s1.dropWhile isWS)
  let s3 ← wsPlus s2
  let (nm, s4) ← takeClass1 isWordChar s3
  pure (',' :: ' ' :: nm, s4)

/-- Rule 6 matcher, `(function\s+\w+)\s*<[^>]+>\s*\(` with replacement `$1(`;
the capture keeps the original whitespace between `function` and the name. -/
def tryFnGeneric (s : List Char) : Option (List Char × List Char) := do
  let s1 ← dropLit ("function".data) s
  let (wsrun, s2) ← takeClass1 isWS s1
  let (nm, s3) ← takeClass1 isWordChar s2
  let s4 ← expectChar '<' (s3.dropWhile isWS)
  match s4 with
  | [] => none
  | c :: rest =>
    if c == '>' then none
    else do
      let s5 ← upThrough ('>' :: []) rest
      let s6 ← expectChar '(' (s5.dropWhile isWS)
      pure (("function".data) ++ wsrun ++ nm ++ ('(' :: []), s6)

/-- The character class `[\w<>[\]|&\s]` of the return-type rules. -/
def isTypeChar (c : Char) : Bool :=
  isWordChar c || c = '<' || c = '>' || c = '[' || c = ']' || c = '|' ||
    c = '&' || isWS c

/-- Rule 7 matcher, `\)\s*:\s*[\w<>[\]|&\s]+\s*\{` with replacement `) {`.
Whitespace belongs to the class, so `\s*[..]+\s*` is one maximal class run of
length at least one, and the brace must follow it directly (the class excludes
braces, so backtracking cannot move the brace). -/
def tryRetTypeBrace (s : List Char) : Option (List Char × List Char) := do
  let s1 ← expectChar ')' s
  let s2 ← expectChar ':' (s1.dropWhile isWS)
  let (_, s3) ← takeClass1 isTypeChar s2
  let s4 ← expectChar '\x7b' s3
  pure (')' :: ' ' :: '\x7b' :: [], s4)

/-- Rule 8 matcher, `\)\s*:\s*[\w<>[\]|&\s]+\s*=>` with replacement `) =>`
(the class excludes `=`, so `=>` must follow the maximal class run). -/
def tryRetTypeArrow (s : List Char) : Option (List Char × List Char) := do
  let s1 ← expectChar ')' s
  let s2 ← expectChar ':' (s1.dropWhile isWS)
  let (_, s3) ← takeClass1 isTypeChar s2
  let s4 ← expectChar '=' s3
  let s5 ← expectChar '>' s4
  pure (')' :: ' ' :: '=' :: '>' :: [], s5)

/-- Split around the first occurrence of a character. -/
def splitAtFirst (t : Char) : List Char → Option (List Char × List Char)
  | [] => none
  | c :: rest =>
    if c = t then some ([], rest)
    else (splitAtFirst t rest).map (fun p => (c :: p.1, p.2))

/-- Split on every occurrence of a character (JavaScript `String.split`). -/
def splitOnChar (t : Char) : List Char → List (List Char)
  | [] => [[]]
  | c :: rest =>
    let r := splitOnChar t rest
    if c = t then [] :: r
    else
      match r with
      | [] => (c :: []) :: []
      | h :: tl => (c :: h) :: tl

/-- JavaScript `String.trim` (ASCII whitespace). -/
def trimWS (l : List Char) : List Char :=
  ((l.dropWhile isWS).reverse.dropWhile isWS).reverse

/-- `\s*.+$` with `.` excluding newlines and `$` the very end: some whitespace
prefix followed by a nonempty newline-free remainder. -/
def wsStarDotPlusEnd : List Char → Bool
  | [] => false
  | c :: rest =>
    (c :: rest).all (fun d => !(d == '\n')) || (isWS c && wsStarDotPlusEnd rest)

/-- Rule 9 per-parameter rewrite: `^(\w+)\??:\s*.+$` keeps the name alone,
else `^(\.\.\.?\w+):\s*.+$` keeps the dots and the name, else the trimmed
parameter is kept as is. -/
def stripOneParam (piece : List Char) : List Char :=
  let trimmed := trimWS piece
  let viaName : Option (List Char) :=
    match takeClass1 isWordChar trimmed with
    | none => none
    | some (nm, rest) =>
      match rest with
      | '?' :: ':' :: t => if wsStarDotPlusEnd t then some nm else none
      | ':' :: t => if wsStarDotPlusEnd t then some nm else none
      | _ => none
  match viaName with
  | some nm => nm
  | none =>
    let viaRest : Option (List Char) :=
      match trimmed with
      | '.' :: '.' :: rest0 =>
        let (dots, rest1) :=
          match rest0 with
          | '.' :: r => ('.' :: '.' :: '.' :: [], r)
          | r => ('.' :: '.' :: [], r)
        match takeClass1 isWordChar rest1 with
        | none => none
        | some (nm, rest2) =>
          match rest2 with
          | ':' :: t => if wsStarDotPlusEnd t then some (dots ++ nm) else none
          | _ => none
      | _ => none
    match viaRest with
    | some r => r
    | none => trimmed

/-- Rule 9 matcher, `\(([^)]*)\)` with the callback of the source: a group
containing no colon is reproduced verbatim, otherwise it is split on commas,
each piece rewritten by `stripOneParam`, and rejoined with `, `. -/
def tryParamGroup (s : List Char) : Option (List Char × List Char) := do
  let s1 ← expectChar '(' s
  let (params, rest) ← splitAtFirst ')' s1
  if params.contains ':' then
    let stripped := List.intercalate (',' :: ' ' :: [])
      ((splitOnChar ',' params).map stripOneParam)
    pure ('(' :: stripped ++ (')' :: []), rest)
  else
    pure ('(' :: params ++ (')' :: []), rest)

/-- The ordered alternation `(const|let|var)` at the head of `s`, returning
the matched keyword and the remainder. -/
def kwAlt (s : List Char) : Option (List Char × List Char) :=
  match dropLit ("const".data) s with
  | some r => some (("const".data), r)
  | none =>
    match dropLit ("let".data) s with
    | some r => some (("let".data), r)
    | none =>
      match dropLit ("var".data) s with
      | some r => some (("var".data), r)
      | none => none

/-- Rule 10 matcher, `(const|let|var)\s+(\w+)\s*:\s*[\w<>[\]|&\s]+\s*=` with
replacement `$1 $2 =`. -/
def tryVarDecl (s : List Char) : Option (List Char × List Char) := do
  let (kw, s1) ← kwAlt s
  let s2 ← wsPlus s1
  let (nm, s3) ← takeClass1 isWordChar s2
  let s4 ← expectChar ':' (s3.dropWhile isWS)
  let (_, s5) ← takeClass1 isTypeChar s4
  let s6 ← expectChar '=' s5
  pure (kw ++ (' ' :: nm) ++ (' ' :: '=' :: []), s6)

/-- The whitespace-free class `[\w<>[\]|&]` of the `as`-assertion rule. -/
def isTypeCharNoWS (c : Char) : Bool :=
  isWordChar c || c = '<' || c = '>' || c = '[' || c = ']' || c = '|' || c = '&'

/-- Rule 11 matcher, `(\S)\s+as\s+[\w<>[\]|&]+` with replacement `$1`. -/
def tryAsAssertion (s : List Char) : Option (List Char × List Char) :=
  match s with
  | [] => none
  | c :: rest =>
    if isWS c then none
    else do
      let r1 ← wsPlus rest
      let r2 ← dropLit ('a' :: 's' :: []) r1
      let r3 ← wsPlus r2
      let (_, r4) ← takeClass1 isTypeCharNoWS r3
      pure (c :: [], r4)

/-- Rule 12 matcher, `(\w+)!` with replacement `$1`. -/
def tryNonNull (s : List Char) : Option (List Char × List Char) := do
  let (nm, r1) ← takeClass1 isWordChar s
  let r2 ← expectChar '!' r1
  pure (nm, r2)

/-- Rule 13 matcher, `\n{3,}` (greedy) with replacement of two newlines. -/
def tryBlankLines (s : List Char) : Option (List Char × List Char) :=
  match s with
  | a :: b :: c :: rest =>
    if a = '\n' ∧ b = '\n' ∧ c = '\n' then
      some ('\n' :: '\n' :: [], rest.dropWhile (fun d => d == '\n'))
    else none
  | _ => none

/-- `stripTypeScript` (src/lib/sandbox/client.ts): the thirteen sequential
global replaces of the source, in source order. -/
def stripTypeScript (code : String) : String :=
  let d0 := code.data
  let d1 := scanRwA tryInterface d0.length true d0
  let d2 := scanRwA tryTypeAlias d1.length true d1
  let d3 := scanRw tryImportType d2.length d2
  let d4 := scanRw tryBraceType d3.length d3
  let d5 := scanRw tryCommaType d4.length d4
  let d6 := scanRw tryFnGeneric d5.length d5
  let d7 := scanRw tryRetTypeBrace d6.length d6
  let d8 := scanRw tryRetTypeArrow d7.length d7
  let d9 := scanRw tryParamGroup d8.length d8
  let d10 := scanRw tryVarDecl d9.length d9
  let d11 := scanRw tryAsAssertion d10.length d10
  let d12 := scanRw tryNonNull d11.length d11
  let d13 := scanRw tryBlankLines d12.length d12
  String.mk d13

/-- One attempt of `export\s+async\s+function` (replaced by
`async function`). -/
def tryExportAsyncFnKw (s : List Char) : Option (List Char × List Char) := do
  let s1 ← dropLit ("export".data) s
  let s2 ← wsPlus s1
  let s3 ← dropLit ("async".data) s2
  let s4 ← wsPlus s3
  let s5 ← dropLit ("function".data) s4
  pure (("async function".data), s5)

/-- One attempt of `export\s+function` (replaced by `function`). -/
def tryExportFnKw (s : List Char) : Option (List Char × List Char) := do
  let s1 ← dropLit ("export".data) s
  let s2 ← wsPlus s1
  let s3 ← dropLit ("function".data) s2
  pure (("function".data), s3)

/-- One attempt of `export\s+const` (replaced by `const`). -/
def tryExportConstKw (s : List Char) : Option (List Char × List Char) := do
  let s1 ← dropLit ("export".data) s
  let s2 ← wsPlus s1
  let s3 ← dropLit ("const".data) s2
  pure (("const".data), s3)

/-- The export-keyword removal of `generateWorkerScript`: three sequential
global replaces applied after `stripTypeScript`. -/
def removeExports (code : String) : String :=
  let d0 := code.data
  let d1 := scanRw tryExportAsyncFnKw d0.length d0
  let d2 := scanRw tryExportFnKw d1.length d1
  let d3 := scanRw tryExportConstKw d2.length d2
  String.mk d3

/-- JSON values as the generated script and the transport exchange them.
Numbers are modelled as integers; none of the claims involves fractional
values. -/
inductive JValue where
  | null : JValue
  | bool : Bool → JValue
  | num : Int → JValue
  | str : String → JValue
  | arr : List JValue → JValue
  | obj : List (String × JValue) → JValue

/-- A hexadecimal digit, for control-character escapes. -/
def hexDigit (n : Nat) : Char :=
  if n < 10 then Char.ofNat ('0'.toNat + n) else Char.ofNat ('a'.toNat + n - 10)

/-- JSON string escaping as `JSON.stringify` performs it. -/
def jsonEscapeChar (c : Char) : List Char :=
  if c = '"' then '\\' :: '"' :: []
  else if c = '\\' then '\\' :: '\\' :: []
  else if c = '\n' then '\\' :: 'n' :: []
  else if c = '\r' then '\\' :: 'r' :: []
  else if c = '\t' then '\\' :: 't' :: []
  else if c = '\x08' then '\\' :: 'b' :: []
  else if c = '\x0c' then '\\' :: 'f' :: []
  else if c.toNat < 32 then
    '\\' :: 'u' :: '0' :: '0' :: hexDigit (c.toNat / 16) :: hexDigit (c.toNat % 16) :: []
  else c :: []

/-- `JSON.stringify` of a string literal. -/
def stringifyStr (s : String) : String :=
  "\"" ++ String.mk ((s.data.map jsonEscapeChar).flatten) ++ "\""

mutual

/-- `JSON.stringify` on decoded JSON values. -/
def stringify : JValue → String
  | .null => "null"
  | .bool true => "true"
  | .bool false => "false"
  | .num n => toString n
  | .str s => stringifyStr s
  | .arr xs => "[" ++ String.intercalate "," (stringifyList xs) ++ "]"
  | .obj fs => "\x7b" ++ String.intercalate "," (stringifyFields fs) ++ "\x7d"

def stringifyList : List JValue → List String
  | [] => []
  | x :: xs => stringify x :: stringifyList xs

def stringifyFields : List (String × JValue) → List String
  | [] => []
  | (k, v) :: fs => (stringifyStr k ++ ":" ++ stringify v) :: stringifyFields fs

end

/-- Output channels of the worker process. -/
inductive Channel where
  | stdout : Channel
  | stderr : Channel
deriving DecidableEq

/-- Observable outcome of one run of the generated script. -/
structure ProcResult where
  stdoutLines : List String
  stderrLines : List String
  exitCode : Nat

/-- The `__RESULT__ ... __END_RESULT__` marker line for a serialized value. -/
def markerLine (json : String) : String :=
  "__RESULT__" ++ json ++ "__END_RESULT__"

/-- The error envelope the generated script serializes on a caught error,
`{ __error: true, message }`. -/
def errorEnvelope (msg : String) : JValue :=
  .obj (("__error", .bool true) :: ("message", .str msg) :: [])

/-- The property names an object literal inherits from `Object.prototype`
(the ECMAScript standard methods together with the Annex B accessor
properties and `__proto__`).  The generated registry is the object literal
`const functions = { ... }`, so `functions[name]` for any of these names
resolves to the inherited member — a truthy value — even when `name` was
never registered. -/
def objectProtoKeys : List String :=
  "constructor" :: "hasOwnProperty" :: "isPrototypeOf" ::
    "propertyIsEnumerable" :: "toLocaleString" :: "toString" :: "valueOf" ::
    "__defineGetter__" :: "__defineSetter__" :: "__lookupGetter__" ::
    "__lookupSetter__" :: "__proto__" :: []

/-- Shallow embedding of the `main` entry point of the generated worker script
(the template literal of `generateWorkerScript`, src/lib/sandbox/client.ts).
The registry maps each manifest name to its user function, modelled as a total
map from the parsed payload to either a returned value or a thrown error
message.  `functions[functionName]` is JavaScript property lookup on the
object-literal registry: an own property (registry entry) if one exists,
otherwise the member inherited from `Object.prototype` when `functionName` is
one of its property names — `protoCall` is the runtime behavior of invoking
that inherited member with the payload (its returned value, or the message of
the `TypeError` it throws for a non-callable such as `__proto__`).
`JSON.parse` is the runtime primitive passed in as `parse`; `argv2`/`argv3`
are the command-line arguments. -/
def workerMain (registry : List (String × (JValue → Except String JValue)))
    (protoCall : String → JValue → Except String JValue)
    (parse : String → Except String JValue)
    (argv2 : Option String) (argv3 : Option String) : ProcResult :=
  let functionName := argv2.getD ""
  let payloadJson :=
    match argv3 with
    | none => "\x7b\x7d"
    | some s => if s = "" then "\x7b\x7d" else s
  if functionName = "" then
    { stdoutLines := [],
      stderrLines := ["Usage: node worker.js <functionName> [payloadJson]"],
      exitCode := 1 }
  else
    let funcOpt : Option (JValue → Except String JValue) :=
      match List.lookup functionName registry with
      | some f => some f
      | none =>
        if objectProtoKeys.contains functionName then some (protoCall functionName)
        else none
    match funcOpt with
    | none =>
      { stdoutLines := [],
        stderrLines := ["Function \x27" ++ functionName ++ "\x27 not found. Available: " ++
          String.intercalate ", " (registry.map (fun f => f.1))],
        exitCode := 1 }
    | some func =>
      match parse payloadJson with
      | .error msg =>
        { stdoutLines := [markerLine (stringify (errorEnvelope msg))],
          stderrLines := ["Function error: " ++ msg],
          exitCode := 1 }
      | .ok payload =>
        match func payload with
        | .ok result =>
          { stdoutLines := [markerLine (stringify result)],
            stderrLines := [],
            exitCode := 0 }
        | .error msg =>
          { stdoutLines := [markerLine (stringify (errorEnvelope msg))],
            stderrLines := ["Function error: " ++ msg],
            exitCode := 1 }

/-- The fixed text of the generated worker script around the transformed user
code and the registry lines (the template literal of `generateWorkerScript`). -/
def workerScriptText (transformedCode : String) (functionNames : List String) : String :=
  "// Worker script - generated for sandbox execution\n" ++
  "// User code (transformed - exports and TypeScript removed)\n" ++
  transformedCode ++
  "\n\n// Function registry\nconst functions = \x7b\n" ++
  String.intercalate "\n"
    (functionNames.map (fun fn => "  \x27" ++ fn ++ "\x27: " ++ fn ++ ",")) ++
  "\n\x7d;\n\n// Main execution\nasync function main() \x7b\n" ++
  "  const functionName = process.argv[2];\n" ++
  "  const payloadJson = process.argv[3] || \x27\x7b\x7d\x27;\n\n" ++
  "  if (!functionName) \x7b\n" ++
  "    console.error(\x27Usage: node worker.js <functionName> [payloadJson]\x27);\n" ++
  "    process.exit(1);\n  \x7d\n\n" ++
  "  const func = functions[functionName];\n" ++
  "  if (!func) \x7b\n" ++
  "    console.error(`Function \x27$\x7bfunctionName\x7d\x27 not found. Available: $\x7bObject.keys(functions).join(\x27, \x27)\x7d`);\n" ++
  "    process.exit(1);\n  \x7d\n\n" ++
  "  try \x7b\n" ++
  "    const payload = JSON.parse(payloadJson);\n" ++
  "    const result = await func(payload);\n\n" ++
  "    // Output result with markers so it can be parsed\n" ++
  "    console.log(\x27__RESULT__\x27 + JSON.stringify(result) + \x27__END_RESULT__\x27);\n" ++
  "  \x7d catch (error) \x7b\n" ++
  "    console.error(\x27Function error:\x27, error.message || error);\n" ++
  "    // Output error result\n" ++
  "    console.log(\x27__RESULT__\x27 + JSON.stringify(\x7b __error: true, message: error.message || String(error) \x7d) + \x27__END_RESULT__\x27);\n" ++
  "    process.exit(1);\n  \x7d\n\x7d\n\nmain();\n"

/-- The exact message of the fail-fast error of `generateWorkerScript`. -/
def noExportsMsg : String :=
  "No exported functions found in worker code. Functions must be exported (e.g., \"export async function myFunc(payload) \x7b ... \x7d\")"

/-- `generateWorkerScript` (src/lib/sandbox/client.ts): extract the manifest,
fail fast when it is empty, otherwise strip types, drop `export` keywords and
assemble the script text; returns the script and the manifest. -/
def generateWorkerScript (userCode : String) : Except String (String × List String) :=
  let functionNames := extractFunctionNames userCode
  if functionNames.length = 0 then
    .error noExportsMsg
  else
    let transformedCode := removeExports (stripTypeScript userCode)
    .ok (workerScriptText transformedCode functionNames, functionNames)

/-- Substring occurrence (`String.includes`). -/
def occursIn (pat : List Char) : List Char → Bool
  | [] => pat.isEmpty
  | c :: rest => pat.isPrefixOf (c :: rest) || occursIn pat rest

/-- The literal `__RESULT__`. -/
def RMARK : List Char := ("__RESULT__".data)

/-- The literal `__END_RESULT__`. -/
def EMARK : List Char := ("__END_RESULT__".data)

/-- Split a list around the first occurrence of `pat`. -/
def splitFirst (pat : List Char) : List Char → Option (List Char × List Char)
  | [] => (dropLit pat []).map (fun r => (([] : List Char), r))
  | c :: rest =>
    match dropLit pat (c :: rest) with
    | some r => some ([], r)
    | none => (splitFirst pat rest).map (fun p => (c :: p.1, p.2))

/-- Split a list around the last occurrence of `pat`. -/
def splitLastOcc (pat : List Char) : List Char → Option (List Char × List Char)
  | [] => (dropLit pat []).map (fun r => (([] : List Char), r))
  | c :: rest =>
    match splitLastOcc pat rest with
    | some p => some (c :: p.1, p.2)
    | none => (dropLit pat (c :: rest)).map (fun r => (([] : List Char), r))

/-- The match of `stdout.match(/__RESULT__([\s\S]+)__END_RESULT__/)`
(src/lib/sandbox/client.ts): the match starts at the first occurrence of
`__RESULT__`; the greedy `([\s\S]+)` then extends the capture to the last
following `__END_RESULT__`, and the capture must be nonempty. -/
def findMarker (s : List Char) : Option (List Char) := do
  let (_, t) ← splitFirst RMARK s
  let (m, _) ← splitLastOcc EMARK t
  if m.isEmpty then none else pure m

/-- One chunk of the command log stream of the execution provider. -/
structure LogChunk where
  stream : Channel
  data : String

/-- A forwarded log entry (`LogEntry` of src/lib/sandbox/client.ts). -/
structure LogEntry where
  stream : Channel
  data : String
  timestamp : Nat

/-- JavaScript `String.trimEnd`. -/
def trimEnd (s : String) : String :=
  String.mk (s.data.reverse.dropWhile isWS).reverse

/-- The behavior of the external execution provider and runtime primitives
during one `invokeFunction` call: whether `Sandbox.create` succeeds, whether
`runCommand` succeeds and which log chunks the command then streams, the
outcome of `command.wait()`, the `JSON.parse` primitive, and the wall clock
(`now k` is the value returned by the `k`-th `Date.now()` call). -/
structure InvokeEnv where
  createResult : Except String Unit
  runCommand : Except String (List LogChunk)
  waitResult : Except String Unit
  parse : String → Except String JValue
  now : Nat → Nat

/-- `InvokeFunctionResult` of src/lib/sandbox/client.ts. -/
structure InvokeResult where
  result : JValue
  duration : Nat

/-- What one `invokeFunction` call did: its returned-or-thrown outcome, the
log entries handed to `onLog` in order, and whether `sandbox.stop()` ran. -/
structure InvokeOutput where
  outcome : Except String InvokeResult
  forwarded : List LogEntry
  stopped : Bool

/-- The `for await (const log of command.logs())` loop, threading the
accumulated stdout buffer and the `Date.now` call counter: stdout chunks are
appended to the buffer; a chunk whose text contains `__RESULT__` is skipped;
every other chunk is forwarded with its channel, trailing whitespace removed,
and a fresh timestamp. -/
def pumpLogs (now : Nat → Nat) : List LogChunk → String → Nat →
    String × List LogEntry × Nat
  | [], stdoutAcc, k => (stdoutAcc, [], k)
  | log :: rest, stdoutAcc, k =>
    let acc2 := if log.stream = Channel.stdout then stdoutAcc ++ log.data else stdoutAcc
    if occursIn RMARK log.data.data then
      pumpLogs now rest acc2 k
    else
      let e : LogEntry := { stream := log.stream, data := trimEnd log.data, timestamp := now k }
      let res := pumpLogs now rest acc2 (k + 1)
      (res.1, e :: res.2.1, res.2.2)

/-- `SandboxClient.invokeFunction` (src/lib/sandbox/client.ts): create a
sandbox from the snapshot, record the start time, run the worker command,
pump the log stream, wait for termination, measure the duration, scan the
buffered stdout for the result marker and decode it; the `finally` block
stops the sandbox on every path entered after a successful creation. -/
def invokeFunction (env : InvokeEnv) : InvokeOutput :=
  match env.createResult with
  | .error e => { outcome := .error e, forwarded := [], stopped := false }
  | .ok _ =>
    let body : Except String InvokeResult × List LogEntry :=
      match env.runCommand with
      | .error e => (.error e, [])
      | .ok logs =>
        let res := pumpLogs env.now logs "" 1
        match env.waitResult with
        | .error e => (.error e, res.2.1)
        | .ok _ =>
          let duration := env.now res.2.2 - env.now 0
          match findMarker res.1.data with
          | none => (.error "Function did not return a result", res.2.1)
          | some captured =>
            match env.parse (String.mk captured) with
            | .error e => (.error e, res.2.1)
            | .ok v => (.ok { result := v, duration := duration }, res.2.1)
    { outcome := body.1, forwarded := body.2, stopped := true }

/-- The external effects of one `createWorkerSnapshot` call. -/
structure SnapshotEnv where
  createResult : Except String Unit
  writeResult : Except String Unit
  snapshotResult : Except String String
  expiresAt : Nat

/-- What one `createWorkerSnapshot` call did. -/
structure SnapshotOutput where
  outcome : Except String (String × Nat)
  stopped : Bool

/-- `SandboxClient.createWorkerSnapshot` (src/lib/sandbox/client.ts): create
a sandbox, write the worker files, snapshot it (snapshotting itself stops the
sandbox, so the success path calls no explicit `stop`); the `catch` block
stops the sandbox and rethrows when writing or snapshotting fails. -/
def createWorkerSnapshot (env : SnapshotEnv) : SnapshotOutput :=
  match env.createResult with
  | .error e => { outcome := .error e, stopped := false }
  | .ok _ =>
    match env.writeResult with
    | .error e => { outcome := .error e, stopped := true }
    | .ok _ =>
      match env.snapshotResult with
      | .error e => { outcome := .error e, stopped := true }
      | .ok sid => { outcome := .ok (sid, env.expiresAt), stopped := false }

/-- The three caller-facing streamed event kinds; the error event carries the
`error` field of its JSON payload (`none` models an absent message field of a
decoded error envelope, `some` a present one or a thrown message). -/
inductive SSEEvent where
  | log : Channel → String → Nat → SSEEvent
  | result : JValue → Nat → SSEEvent
  | errorEv : Option JValue → SSEEvent

/-- JavaScript truthiness of a decoded JSON value. -/
def isTruthy : JValue → Bool
  | .null => false
  | .bool b => b
  | .num n => !(n == 0)
  | .str s => !(s == "")
  | .arr _ => true
  | .obj _ => true

/-- `typeof v === 'object'` on a decoded JSON value (true for null, arrays
and objects). -/
def isObjectType : JValue → Bool
  | .null => true
  | .arr _ => true
  | .obj _ => true
  | _ => false

/-- `'__error' in v` on a decoded JSON value that passed the object check. -/
def hasErrorKey : JValue → Bool
  | .obj fields => fields.any (fun f => f.1 == "__error")
  | _ => false

/-- `errorResult.message` of a decoded error envelope. -/
def envelopeMessage : JValue → Option JValue
  | .obj fields => (fields.find? (fun f => f.1 == "message")).map (fun f => f.2)
  | _ => none

/-- `handleSSEInvocation` (src/app/api/workers/[id]/invoke/[fn]/route.ts):
the events enqueued on the SSE stream, in order: one `log` event per
forwarded log line, then exactly one terminal event — an `error` event when
the decoded result is a truthy object carrying an `__error` key or when
`invokeFunction` threw, a `result` event otherwise. -/
def handleSSEInvocation (env : InvokeEnv) : List SSEEvent :=
  let out := invokeFunction env
  let logEvents := out.forwarded.map (fun l => SSEEvent.log l.stream l.data l.timestamp)
  match out.outcome with
  | .ok r =>
    if isTruthy r.result && isObjectType r.result && hasErrorKey r.result then
      logEvents ++ [SSEEvent.errorEv (envelopeMessage r.result)]
    else
      logEvents ++ [SSEEvent.result r.result r.duration]
  | .error e => logEvents ++ [SSEEvent.errorEv (some (.str e))]

/-- Do the first four characters consist of a whitespace character, `a`, `s`,
and another whitespace character? -/
def wsAsWsAt (l : List Char) : Bool :=
  match l with
  | c :: a :: s2 :: d :: _ => isWS c && (a == 'a') && (s2 == 's') && isWS d
  | _ => false

/-- Does the text contain, consecutively, a whitespace character, `a`, `s`,
and another whitespace character?  This is the shape every match of the
`(\S)\s+as\s+[..]+` rule must contain. -/
def hasWsAsWs : List Char → Bool
  | [] => false
  | c :: rest => wsAsWsAt (c :: rest) || hasWsAsWs rest

/-- Do the first two characters consist of a word character followed by `!`? -/
def wordBangAt (l : List Char) : Bool :=
  match l with
  | c :: d :: _ => isWordChar c && (d == '!')
  | _ => false

/-- Does the text contain a `!` directly preceded by a word character?  This
is the shape every match of the `(\w+)!` rule must contain; a `!` after a
non-word character (prefix negation `!p`, `&&`-chains, string contents after
a space) never matches that rule. -/
def hasWordBang : List Char → Bool
  | [] => false
  | c :: rest => wordBangAt (c :: rest) || hasWordBang rest

/-- The guarded fragment on which the amended idempotence claim holds: no
`interface` or `type` substring (rules 1–5), no `<` (rule 6), no colon
(rules 7–10), no whitespace-delimited `as` token (rule 11), no `!` directly
after a word character (rule 12; a prefix negation such as `!p` is allowed),
and no run of three newlines (rule 13). -/
def plainBody (s : String) : Prop :=
  occursIn ("interface".data) s.data = false ∧
  occursIn ("type".data) s.data = false ∧
  '<' ∉ s.data ∧ ':' ∉ s.data ∧ hasWsAsWs s.data = false ∧
  hasWordBang s.data = false ∧
  occursIn ('\n' :: '\n' :: '\n' :: []) s.data = false

instance (s : String) : Decidable (plainBody s) := by
  unfold plainBody
  infer_instance

/-- The declarative form of the forwarded log entries: channel kept, text
trimmed at the end, consecutive `Date.now` reads as timestamps. -/
def stampFrom (now : Nat → Nat) (k : Nat) : List LogChunk → List LogEntry
  | [] => []
  | c :: rest =>
    { stream := c.stream, data := trimEnd c.data, timestamp := now k } ::
      stampFrom now (k + 1) rest

/-- A terminal (non-`log`) streamed event. -/
def isTerminal : SSEEvent → Bool
  | .log _ _ _ => false
  | .result _ _ => true
  | .errorEv _ => true

/-- The decoded value carries `__error: true`: it is an object with an
`__error` field whose value is the boolean `true`. -/
def carriesErrorTrue : JValue → Bool
  | .obj fields => fields.any (fun f => f.1 == "__error" &&
      (match f.2 with | .bool true => true | _ => false))
  | _ => false

theorem dropLit_some {p t r : List Char} (h : dropLit p t = some r) : t = p ++ r := by
  induction p generalizing t with
  | nil =>
    simp only [dropLit, Option.some.injEq] at h
    simp [h]
  | cons c p ih =>
    cases t with
    | nil => simp [dropLit] at h
    | cons d t =>
      by_cases hd : d = c
      · subst hd
        simp only [dropLit, if_pos rfl] at h
        simp [ih h]
      · simp [dropLit, hd] at h

theorem dropLit_self (p r : List Char) : dropLit p (p ++ r) = some r := by
  induction p with
  | nil => rfl
  | cons c p ih => simp [dropLit, ih]

theorem dropLit_suffix {p t r : List Char} (h : dropLit p t = some r) : r <:+ t :=
  ⟨p, (dropLit_some h).symm⟩

theorem wsPlus_some {t r : List Char} (h : wsPlus t = some r) :
    ∃ c t', t = c :: t' ∧ isWS c = true ∧ r = t'.dropWhile isWS := by
  cases t with
  | nil => simp [wsPlus] at h
  | cons c t' =>
    by_cases hc : isWS c
    · simp only [wsPlus, if_pos hc, Option.some.injEq] at h
      exact ⟨c, t', rfl, hc, h.symm⟩
    · simp [wsPlus, hc] at h

theorem wsPlus_suffix {t r : List Char} (h : wsPlus t = some r) : r <:+ t := by
  obtain ⟨c, t', rfl, _, rfl⟩ := wsPlus_some h
  exact (List.dropWhile_suffix _).trans (List.suffix_cons _ _)

theorem takeClass1_some {p : Char → Bool} {t nm r : List Char}
    (h : takeClass1 p t = some (nm, r)) :
    ∃ c t', t = c :: t' ∧ p c = true ∧ nm = c :: t'.takeWhile p ∧ r = t'.dropWhile p := by
  cases t with
  | nil => simp [takeClass1] at h
  | cons c t' =>
    by_cases hc : p c
    · simp only [takeClass1, if_pos hc, Option.some.injEq, Prod.mk.injEq] at h
      exact ⟨c, t', rfl, hc, h.1.symm, h.2.symm⟩
    · simp [takeClass1, hc] at h

theorem takeClass1_suffix {p : Char → Bool} {t nm r : List Char}
    (h : takeClass1 p t = some (nm, r)) : r <:+ t := by
  obtain ⟨c, t', rfl, _, _, rfl⟩ := takeClass1_some h
  exact (List.dropWhile_suffix _).trans (List.suffix_cons _ _)

theorem expectChar_some {c : Char} {t r : List Char} (h : expectChar c t = some r) :
    t = c :: r := by
  cases t with
  | nil => simp [expectChar] at h
  | cons d t' =>
    by_cases hd : d = c
    · subst hd
      simp only [expectChar, if_pos rfl] at h
      simp only [Option.ite_none_right_eq_some, Option.some.injEq] at h
      simp [h]
    · simp [expectChar, hd] at h

theorem expectChar_suffix {c : Char} {t r : List Char} (h : expectChar c t = some r) :
    r <:+ t :=
  ⟨[c], (expectChar_some h).symm⟩

theorem occursIn_of_isPrefix {pat t : List Char} (h : pat <+: t) : occursIn pat t = true := by
  cases t with
  | nil =>
    have : pat = [] := List.prefix_nil.mp h
    simp [occursIn, this]
  | cons c rest =>
    simp only [occursIn, Bool.or_eq_true]
    exact Or.inl (List.isPrefixOf_iff_prefix.mpr h)

theorem occursIn_mono {pat t s : List Char} (hts : t <:+ s) (h : occursIn pat t = true) :
    occursIn pat s = true := by
  obtain ⟨pre, rfl⟩ := hts
  induction pre with
  | nil => simpa using h
  | cons c pre ih => simp [occursIn, ih]

/-- Identity of a global replace scan: when every match at every suffix of
`s` reproduces exactly its consumed text (in particular when no suffix
matches at all), the scan leaves `s` unchanged. -/
theorem scanRw_id (m : List Char → Option (List Char × List Char)) :
    ∀ (fuel : Nat) (s : List Char),
      (∀ t, t <:+ s → ∀ repl r, m t = some (repl, r) → repl ++ r = t ∧ r.length < t.length) →
      scanRw m fuel s = s := by
  intro fuel
  induction fuel with
  | zero => intro s _; rfl
  | succ fuel ih =>
    intro s h
    cases s with
    | nil => rfl
    | cons c rest =>
      cases hm : m (c :: rest) with
      | none =>
        simp only [scanRw, hm]
        rw [ih rest (fun t ht => h t (ht.trans (List.suffix_cons c rest)))]
      | some pr =>
        obtain ⟨repl, r⟩ := pr
        obtain ⟨heq, hlt⟩ := h (c :: rest) (List.suffix_refl _) repl r hm
        have hr : r <:+ c :: rest := ⟨repl, heq⟩
        simp only [scanRw, hm]
        rw [if_pos (by simpa using hlt), ih r (fun t ht => h t (ht.trans hr))]
        exact heq

/-- The same identity for the line-anchored scan, for every anchor flag. -/
theorem scanRwA_id (m : List Char → Option (List Char × List Char)) :
    ∀ (fuel : Nat) (s : List Char) (flag : Bool),
      (∀ t, t <:+ s → ∀ repl r, m t = some (repl, r) → repl ++ r = t ∧ r.length < t.length) →
      scanRwA m fuel flag s = s := by
  intro fuel
  induction fuel with
  | zero => intro s flag _; rfl
  | succ fuel ih =>
    intro s flag h
    cases s with
    | nil => rfl
    | cons c rest =>
      cases flag with
      | false =>
        simp only [scanRwA, Bool.false_eq_true, if_false]
        rw [ih rest _ (fun t ht => h t (ht.trans (List.suffix_cons c rest)))]
      | true =>
        cases hm : m (c :: rest) with
        | none =>
          simp only [scanRwA, if_true, hm]
          rw [ih rest _ (fun t ht => h t (ht.trans (List.suffix_cons c rest)))]
        | some pr =>
          obtain ⟨repl, r⟩ := pr
          obtain ⟨heq, hlt⟩ := h (c :: rest) (List.suffix_refl _) repl r hm
          have hr : r <:+ c :: rest := ⟨repl, heq⟩
          simp only [scanRwA, if_true, hm]
          rw [if_pos (by simpa using hlt), ih r _ (fun t ht => h t (ht.trans hr))]
          exact heq

theorem mem_dedupFirst {x : String} : ∀ (seen l : List String),
    x ∈ dedupFirst seen l ↔ x ∈ l ∧ x ∉ seen := by
  intro seen l
  induction l generalizing seen with
  | nil => simp [dedupFirst]
  | cons y ys ih =>
    by_cases hy : y ∈ seen
    · rw [dedupFirst, if_pos hy, ih]
      constructor
      · rintro ⟨h1, h2⟩
        exact ⟨List.mem_cons_of_mem y h1, h2⟩
      · rintro ⟨h1, h2⟩
        rcases List.mem_cons.mp h1 with rfl | h1
        · exact absurd hy h2
        · exact ⟨h1, h2⟩
    · rw [dedupFirst, if_neg hy]
      constructor
      · intro hx
        rcases List.mem_cons.mp hx with rfl | hx
        · exact ⟨List.mem_cons_self _ _, hy⟩
        · obtain ⟨h1, h2⟩ := (ih _).mp hx
          exact ⟨List.mem_cons_of_mem y h1, fun hs => h2 (List.mem_cons_of_mem y hs)⟩
      · rintro ⟨h1, h2⟩
        rcases List.mem_cons.mp h1 with rfl | h1
        · exact List.mem_cons_self _ _
        · by_cases hxy : x = y
          · subst hxy; exact List.mem_cons_self _ _
          · exact List.mem_cons_of_mem y
              ((ih _).mpr ⟨h1, fun hs => (List.mem_cons.mp hs).elim hxy h2⟩)

theorem dedupFirst_sublist : ∀ (seen l : List String), List.Sublist (dedupFirst seen l) l := by
  intro seen l
  induction l generalizing seen with
  | nil => simp [dedupFirst]
  | cons y ys ih =>
    by_cases hy : y ∈ seen
    · rw [dedupFirst, if_pos hy]
      exact (ih seen).cons y
    · rw [dedupFirst, if_neg hy]
      exact (ih (y :: seen)).cons₂ y

theorem dedupFirst_nodup : ∀ (seen l : List String), (dedupFirst seen l).Nodup := by
  intro seen l
  induction l generalizing seen with
  | nil => simp [dedupFirst]
  | cons y ys ih =>
    by_cases hy : y ∈ seen
    · rw [dedupFirst, if_pos hy]
      exact ih seen
    · rw [dedupFirst, if_neg hy]
      refine List.nodup_cons.mpr ⟨fun hmem => ?_, ih (y :: seen)⟩
      exact ((mem_dedupFirst _ _).mp hmem).2 (List.mem_cons_self _ _)

theorem tryInterface_occurs {t repl r : List Char} (h : tryInterface t = some (repl, r)) :
    occursIn ("interface".data) t = true := by
  simp only [tryInterface, Option.bind_eq_bind, Option.bind_eq_some] at h
  obtain ⟨s1, h1, -⟩ := h
  exact occursIn_mono (List.dropWhile_suffix _)
    (occursIn_of_isPrefix ⟨s1, (dropLit_some h1).symm⟩)

theorem tryTypeAlias_occurs {t repl r : List Char} (h : tryTypeAlias t = some (repl, r)) :
    occursIn ("type".data) t = true := by
  simp only [tryTypeAlias, Option.bind_eq_bind, Option.bind_eq_some] at h
  obtain ⟨s1, h1, -⟩ := h
  exact occursIn_mono (List.dropWhile_suffix _)
    (occursIn_of_isPrefix ⟨s1, (dropLit_some h1).symm⟩)

theorem tryImportType_occurs {t repl r : List Char} (h : tryImportType t = some (repl, r)) :
    occursIn ("type".data) t = true := by
  simp only [tryImportType, Option.bind_eq_bind, Option.bind_eq_some] at h
  obtain ⟨s1, h1, s2, h2, s3, h3, -⟩ := h
  have hp : occursIn ("type".data) s2 = true :=
    occursIn_of_isPrefix ⟨s3, (dropLit_some h3).symm⟩
  exact occursIn_mono (dropLit_suffix h1) (occursIn_mono (wsPlus_suffix h2) hp)

theorem tryBraceType_occurs {t repl r : List Char} (h : tryBraceType t = some (repl, r)) :
    occursIn ("type".data) t = true := by
  simp only [tryBraceType, Option.bind_eq_bind, Option.bind_eq_some] at h
  obtain ⟨s1, h1, s2, h2, -⟩ := h
  have hp : occursIn ("type".data) (s1.dropWhile isWS) = true :=
    occursIn_of_isPrefix ⟨s2, (dropLit_some h2).symm⟩
  exact occursIn_mono (expectChar_suffix h1) (occursIn_mono (List.dropWhile_suffix _) hp)

theorem tryCommaType_occurs {t repl r : List Char} (h : tryCommaType t = some (repl, r)) :
    occursIn ("type".data) t = true := by
  simp only [tryCommaType, Option.bind_eq_bind, Option.bind_eq_some] at h
  obtain ⟨s1, h1, s2, h2, -⟩ := h
  have hp : occursIn ("type".data) (s1.dropWhile isWS) = true :=
    occursIn_of_isPrefix ⟨s2, (dropLit_some h2).symm⟩
  exact occursIn_mono (expectChar_suffix h1) (occursIn_mono (List.dropWhile_suffix _) hp)

theorem tryFnGeneric_mem {t repl r : List Char} (h : tryFnGeneric t = some (repl, r)) :
    '<' ∈ t := by
  simp only [tryFnGeneric, Option.bind_eq_bind, Option.bind_eq_some] at h
  obtain ⟨s1, h1, ⟨ws, s2⟩, h2, h⟩ := h
  simp only [Option.bind_eq_some] at h
  obtain ⟨⟨nm, s3⟩, h3, h⟩ := h
  simp only [Option.bind_eq_some] at h
  obtain ⟨s4, h4, -⟩ := h
  have hm : '<' ∈ s3.dropWhile isWS := by
    rw [expectChar_some h4]
    exact List.mem_cons_self _ _
  have hm2 : '<' ∈ s3 := (List.dropWhile_suffix _).subset hm
  have hm3 : '<' ∈ s2 := (takeClass1_suffix h3).subset hm2
  have hm4 : '<' ∈ s1 := (takeClass1_suffix h2).subset hm3
  exact (dropLit_suffix h1).subset hm4

theorem tryRetTypeBrace_mem {t repl r : List Char} (h : tryRetTypeBrace t = some (repl, r)) :
    ':' ∈ t := by
  simp only [tryRetTypeBrace, Option.bind_eq_bind, Option.bind_eq_some] at h
  obtain ⟨s1, h1, s2, h2, -⟩ := h
  have hm : ':' ∈ s1.dropWhile isWS := by
    rw [expectChar_some h2]
    exact List.mem_cons_self _ _
  exact (expectChar_suffix h1).subset ((List.dropWhile_suffix _).subset hm)

theorem tryRetTypeArrow_mem {t repl r : List Char} (h : tryRetTypeArrow t = some (repl, r)) :
    ':' ∈ t := by
  simp only [tryRetTypeArrow, Option.bind_eq_bind, Option.bind_eq_some] at h
  obtain ⟨s1, h1, s2, h2, -⟩ := h
  have hm : ':' ∈ s1.dropWhile isWS := by
    rw [expectChar_some h2]
    exact List.mem_cons_self _ _
  exact (expectChar_suffix h1).subset ((List.dropWhile_suffix _).subset hm)

theorem splitAtFirst_some {t : Char} {l a b : List Char}
    (h : splitAtFirst t l = some (a, b)) : l = a ++ t :: b := by
  induction l generalizing a b with
  | nil => simp [splitAtFirst] at h
  | cons c rest ih =>
    by_cases hc : c = t
    · subst hc
      simp only [splitAtFirst, if_pos rfl, ite_true, Option.some.injEq,
        Prod.mk.injEq] at h
      rw [← h.1, ← h.2]
      simp
    · simp only [splitAtFirst, if_neg hc, Option.map_eq_some'] at h
      obtain ⟨⟨a', b'⟩, hs, heq⟩ := h
      cases heq
      simp [ih hs]

theorem tryParamGroup_id {t repl r : List Char} (hcolon : ':' ∉ t)
    (h : tryParamGroup t = some (repl, r)) :
    repl ++ r = t ∧ r.length < t.length := by
  simp only [tryParamGroup, Option.bind_eq_bind, Option.bind_eq_some] at h
  obtain ⟨s1, h1, ⟨params, rest⟩, hsplit, hres⟩ := h
  have ht : t = '(' :: s1 := expectChar_some h1
  have hs1 : s1 = params ++ ')' :: rest := splitAtFirst_some hsplit
  have hmem : ':' ∉ params := by
    intro hm
    apply hcolon
    rw [ht, hs1]
    exact List.mem_cons_of_mem _ (List.mem_append_left _ hm)
  have hnc : ¬ (params.contains ':' = true) := fun hc =>
    hmem (List.mem_of_elem_eq_true hc)
  rw [if_neg hnc] at hres
  simp only [Option.pure_def, Option.some.injEq, Prod.mk.injEq] at hres
  obtain ⟨hrepl, hr⟩ := hres
  subst hrepl hr
  constructor
  · rw [ht, hs1]
    simp
  · rw [ht, hs1]
    simp [List.length_append]
    omega

theorem kwAlt_suffix {t kw s1 : List Char} (hx : kwAlt t = some (kw, s1)) : s1 <:+ t := by
  unfold kwAlt at hx
  cases hA : dropLit ("const".data) t with
  | some rA =>
    rw [hA] at hx
    simp only [Option.some.injEq, Prod.mk.injEq] at hx
    rw [← hx.2]
    exact dropLit_suffix hA
  | none =>
    rw [hA] at hx
    cases hB : dropLit ("let".data) t with
    | some rB =>
      rw [hB] at hx
      simp only [Option.some.injEq, Prod.mk.injEq] at hx
      rw [← hx.2]
      exact dropLit_suffix hB
    | none =>
      rw [hB] at hx
      cases hC : dropLit ("var".data) t with
      | some rC =>
        rw [hC] at hx
        simp only [Option.some.injEq, Prod.mk.injEq] at hx
        rw [← hx.2]
        exact dropLit_suffix hC
      | none =>
        rw [hC] at hx
        simp at hx

theorem tryVarDecl_mem {t repl r : List Char} (h : tryVarDecl t = some (repl, r)) :
    ':' ∈ t := by
  simp only [tryVarDecl, Option.bind_eq_bind, Option.bind_eq_some] at h
  obtain ⟨⟨kw, s1⟩, hx, h⟩ := h
  have hs1 : s1 <:+ t := kwAlt_suffix hx
  obtain ⟨s2, h2, ⟨nm, s3⟩, h3, s4, h4, -⟩ := h
  have hm : ':' ∈ s3.dropWhile isWS := by
    rw [expectChar_some h4]
    exact List.mem_cons_self _ _
  have hm2 : ':' ∈ s2 := (takeClass1_suffix h3).subset ((List.dropWhile_suffix _).subset hm)
  exact hs1.subset ((wsPlus_suffix h2).subset hm2)

theorem hasWsAsWs_append (x y : List Char) (c1 c2 : Char)
    (h1 : isWS c1 = true) (h2 : isWS c2 = true) :
    hasWsAsWs (x ++ c1 :: 'a' :: 's' :: c2 :: y) = true := by
  induction x with
  | nil => simp [hasWsAsWs, wsAsWsAt, h1, h2]
  | cons c x ih =>
    rw [List.cons_append, hasWsAsWs, ih, Bool.or_true]

theorem tryAsAssertion_occurs {t repl r : List Char}
    (h : tryAsAssertion t = some (repl, r)) : hasWsAsWs t = true := by
  cases t with
  | nil => simp [tryAsAssertion] at h
  | cons c rest =>
    simp only [tryAsAssertion] at h
    by_cases hc : isWS c
    · rw [if_pos hc] at h
      simp at h
    · rw [if_neg hc] at h
      simp only [Option.bind_eq_bind, Option.bind_eq_some] at h
      obtain ⟨r1, hws1, r2, hlit, r3, hws2, -⟩ := h
      obtain ⟨w1, rest', rfl, hw1, hr1⟩ := wsPlus_some hws1
      have h12 : r1 = 'a' :: 's' :: r2 := dropLit_some hlit
      obtain ⟨c2, r2', h23, hc2, -⟩ := wsPlus_some hws2
      have hsplit : rest' = rest'.takeWhile isWS ++ r1 := by
        rw [hr1]
        exact (List.takeWhile_append_dropWhile isWS rest').symm
      have hall : ∀ u ∈ rest'.takeWhile isWS, isWS u = true :=
        fun u hu => List.mem_takeWhile_imp hu
      rcases List.eq_nil_or_concat' (rest'.takeWhile isWS) with hnil | ⟨q, c1, hq⟩
      · have : c :: w1 :: rest' = (c :: []) ++ w1 :: 'a' :: 's' :: c2 :: r2' := by
          rw [hsplit, hnil, h12, h23]
          simp
        rw [this]
        exact hasWsAsWs_append _ _ _ _ hw1 hc2
      · have hc1 : isWS c1 = true := hall c1 (by rw [hq]; simp)
        have : c :: w1 :: rest' = (c :: w1 :: q) ++ c1 :: 'a' :: 's' :: c2 :: r2' := by
          rw [hsplit, hq, h12, h23]
          simp
        rw [this]
        exact hasWsAsWs_append _ _ _ _ hc1 hc2

theorem hasWordBang_append (x y : List Char) (c : Char) (hc : isWordChar c = true) :
    hasWordBang (x ++ c :: '!' :: y) = true := by
  induction x with
  | nil => simp [hasWordBang, wordBangAt, hc]
  | cons d x ih =>
    rw [List.cons_append, hasWordBang, ih, Bool.or_true]

theorem hasWordBang_mono {t s : List Char} (hts : t <:+ s) (h : hasWordBang t = true) :
    hasWordBang s = true := by
  obtain ⟨pre, rfl⟩ := hts
  induction pre with
  | nil => simpa using h
  | cons c pre ih =>
    rw [List.cons_append, hasWordBang, ih, Bool.or_true]

theorem tryNonNull_bang {t repl r : List Char} (h : tryNonNull t = some (repl, r)) :
    hasWordBang t = true := by
  simp only [tryNonNull, Option.bind_eq_bind, Option.bind_eq_some] at h
  obtain ⟨⟨nm, r1⟩, h1, h⟩ := h
  simp only [Option.bind_eq_some] at h
  obtain ⟨r2, h2, -⟩ := h
  obtain ⟨c, t', ht, hc, -, hr1⟩ := takeClass1_some h1
  subst ht
  have h12 : r1 = '!' :: r2 := expectChar_some h2
  have hsplit : t' = t'.takeWhile isWordChar ++ r1 := by
    rw [hr1]
    exact (List.takeWhile_append_dropWhile isWordChar t').symm
  have hall : ∀ u ∈ t'.takeWhile isWordChar, isWordChar u = true :=
    fun u hu => List.mem_takeWhile_imp hu
  rcases List.eq_nil_or_concat' (t'.takeWhile isWordChar) with hnil | ⟨q, c1, hq⟩
  · have heq : c :: t' = ([] : List Char) ++ c :: '!' :: r2 := by
      rw [hsplit, hnil, h12]
      simp
    rw [heq]
    exact hasWordBang_append _ _ _ hc
  · have hc1 : isWordChar c1 = true := hall c1 (by rw [hq]; simp)
    have heq : c :: t' = (c :: q) ++ c1 :: '!' :: r2 := by
      rw [hsplit, hq, h12]
      simp
    rw [heq]
    exact hasWordBang_append _ _ _ hc1

theorem tryBlankLines_occurs {t repl r : List Char}
    (h : tryBlankLines t = some (repl, r)) :
    occursIn ('\n' :: '\n' :: '\n' :: []) t = true := by
  cases t with
  | nil => simp [tryBlankLines] at h
  | cons a t1 =>
    cases t1 with
    | nil => simp [tryBlankLines] at h
    | cons b t2 =>
      cases t2 with
      | nil => simp [tryBlankLines] at h
      | cons c rest =>
        simp only [tryBlankLines] at h
        split at h
        · next hcond =>
          obtain ⟨rfl, rfl, rfl⟩ := hcond
          exact occursIn_of_isPrefix ⟨rest, rfl⟩
        · simp at h

theorem hasWsAsWs_mono {t s : List Char} (hts : t <:+ s) (h : hasWsAsWs t = true) :
    hasWsAsWs s = true := by
  obtain ⟨pre, rfl⟩ := hts
  induction pre with
  | nil => simpa using h
  | cons c pre ih =>
    rw [List.cons_append, hasWsAsWs, ih, Bool.or_true]

/-- **C5 (amended)**: `stripTypeScript` leaves a source text unchanged when
the text exhibits none of the trigger shapes of its thirteen rewrite rules:
no type syntax (`interface`/`type` substrings, `<`, `:`), and additionally no
`!` directly after a word character (a prefix negation such as `!p` is
allowed and round-trips), no whitespace-delimited `as` token, and no
triple-newline run.  The unrestricted claim — identity on every plain
function body without static-type syntax — fails, because the `!` and `as`
rules also fire on purely functional tokens (see the counterexample). -/
theorem strip_identity_on_plain_subset (s : String) (h : plainBody s) :
    stripTypeScript s = s := by
  obtain ⟨h1, h2, h3, h4, h5, h6, h7⟩ := h
  have e1 : scanRwA tryInterface s.data.length true s.data = s.data :=
    scanRwA_id _ _ _ _ (fun t ht repl r hm =>
      absurd (occursIn_mono ht (tryInterface_occurs hm)) (by simp [h1]))
  have e2 : scanRwA tryTypeAlias s.data.length true s.data = s.data :=
    scanRwA_id _ _ _ _ (fun t ht repl r hm =>
      absurd (occursIn_mono ht (tryTypeAlias_occurs hm)) (by simp [h2]))
  have e3 : scanRw tryImportType s.data.length s.data = s.data :=
    scanRw_id _ _ _ (fun t ht repl r hm =>
      absurd (occursIn_mono ht (tryImportType_occurs hm)) (by simp [h2]))
  have e4 : scanRw tryBraceType s.data.length s.data = s.data :=
    scanRw_id _ _ _ (fun t ht repl r hm =>
      absurd (occursIn_mono ht (tryBraceType_occurs hm)) (by simp [h2]))
  have e5 : scanRw tryCommaType s.data.length s.data = s.data :=
    scanRw_id _ _ _ (fun t ht repl r hm =>
      absurd (occursIn_mono ht (tryCommaType_occurs hm)) (by simp [h2]))
  have e6 : scanRw tryFnGeneric s.data.length s.data = s.data :=
    scanRw_id _ _ _ (fun t ht repl r hm =>
      absurd (ht.subset (tryFnGeneric_mem hm)) h3)
  have e7 : scanRw tryRetTypeBrace s.data.length s.data = s.data :=
    scanRw_id _ _ _ (fun t ht repl r hm =>
      absurd (ht.subset (tryRetTypeBrace_mem hm)) h4)
  have e8 : scanRw tryRetTypeArrow s.data.length s.data = s.data :=
    scanRw_id _ _ _ (fun t ht repl r hm =>
      absurd (ht.subset (tryRetTypeArrow_mem hm)) h4)
  have e9 : scanRw tryParamGroup s.data.length s.data = s.data :=
    scanRw_id _ _ _ (fun t ht repl r hm =>
      tryParamGroup_id (fun hc => h4 (ht.subset hc)) hm)
  have e10 : scanRw tryVarDecl s.data.length s.data = s.data :=
    scanRw_id _ _ _ (fun t ht repl r hm =>
      absurd (ht.subset (tryVarDecl_mem hm)) h4)
  have e11 : scanRw tryAsAssertion s.data.length s.data = s.data :=
    scanRw_id _ _ _ (fun t ht repl r hm =>
      absurd (hasWsAsWs_mono ht (tryAsAssertion_occurs hm)) (by simp [h5]))
  have e12 : scanRw tryNonNull s.data.length s.data = s.data :=
    scanRw_id _ _ _ (fun t ht repl r hm =>
      absurd (hasWordBang_mono ht (tryNonNull_bang hm)) (by simp [h6]))
  have e13 : scanRw tryBlankLines s.data.length s.data = s.data :=
    scanRw_id _ _ _ (fun t ht repl r hm =>
      absurd (occursIn_mono ht (tryBlankLines_occurs hm)) (by simp [h7]))
  simp only [stripTypeScript]
  rw [e1, e2, e3, e4, e5, e6, e7, e8, e9, e10, e11, e12, e13]

/-- Witness for the amended C5 theorem: a concrete plain function body in the
guarded fragment — including a prefix negation, which the non-null-assertion
rule leaves alone — round-trips unchanged. -/
theorem strip_identity_on_plain_subset_witness :
    plainBody "export function f(p)\x7b return !p.x; \x7d" ∧
    stripTypeScript "export function f(p)\x7b return !p.x; \x7d" =
      "export function f(p)\x7b return !p.x; \x7d" :=
  ⟨by decide, strip_identity_on_plain_subset _ (by decide)⟩

/-- **C5 (counterexample)**: `stripTypeScript` is not the identity on every
plain function body free of static-type syntax: the non-null-assertion rule
`(\w+)! → $1` deletes the `!` of the `!=` operator in `p.x!=1`, turning a
comparison into an assignment, although the body contains no interface, type
alias, type import, generic, annotation, assertion or non-null assertion. -/
theorem strip_plain_body_counterexample :
    stripTypeScript "export function f(p)\x7b return p.x!=1; \x7d" =
      "export function f(p)\x7b return p.x=1; \x7d" ∧
    stripTypeScript "export function f(p)\x7b return p.x!=1; \x7d" ≠
      "export function f(p)\x7b return p.x!=1; \x7d" :=
  ⟨by decide, by decide⟩

/-- The accumulator-threading `Set` deduplication of the code equals the
declarative keep-first deduplication of the elements not yet seen. -/
theorem dedupFirst_eq_keepFirsts : ∀ (seen l : List String),
    dedupFirst seen l = keepFirsts (l.filter (fun y => !(seen.contains y))) := by
  intro seen l
  induction l generalizing seen with
  | nil => simp [dedupFirst, keepFirsts]
  | cons x xs ih =>
    by_cases hx : x ∈ seen
    · rw [dedupFirst, if_pos hx]
      rw [List.filter_cons_of_neg (by simp [hx])]
      exact ih seen
    · have hfeq : xs.filter (fun y => !((x :: seen).contains y)) =
          (xs.filter (fun y => !(seen.contains y))).filter (fun y => !(y == x)) := by
        rw [List.filter_filter]
        apply List.filter_congr
        intro y hy
        by_cases hyx : y = x
        · simp [List.contains_cons, Bool.not_or, Bool.and_comm, hyx]
        · simp [List.contains_cons, Bool.not_or, Bool.and_comm, hyx]
      rw [dedupFirst, if_neg hx]
      rw [List.filter_cons_of_pos (by simp [hx]), keepFirsts, ih (x :: seen), hfeq]

/-- **C4 (amended)**: `extractFunctionNames` returns the keep-first
deduplication of the concatenation of the three scans run one after another —
all function-declaration-form matches in text order, then the arrow-const-form
matches, then the function-expression-const-form matches, with each duplicated
name kept at its first occurrence in that concatenated order and every later
occurrence deleted — hence each matched name exactly once, as a subsequence of
the scans.  The unamended first-appearance order fails across forms (see the
counterexample). -/
theorem extract_names_dedup_scan_order (code : String) :
    extractFunctionNames code = keepFirsts (extractScans code) ∧
    (extractFunctionNames code).Nodup ∧
    (∀ n, n ∈ extractFunctionNames code ↔ n ∈ extractScans code) ∧
    List.Sublist (extractFunctionNames code) (extractScans code) := by
  refine ⟨?_, dedupFirst_nodup _ _,
    fun n => by rw [extractFunctionNames, mem_dedupFirst]; simp,
    dedupFirst_sublist _ _⟩
  rw [extractFunctionNames, dedupFirst_eq_keepFirsts]
  congr 1
  exact List.filter_eq_self.mpr (fun a _ => rfl)

/-- **C4 (counterexample)**: in a source whose arrow-form export `a`
textually precedes its function-declaration export `b` (the source starts
with `export const a`), the extractor returns `["b", "a"]`, not the order of
first appearance `["a", "b"]`: the three syntactic forms are scanned
separately and the scans concatenated, so every declaration-form name
precedes every const-form name in the output. -/
theorem extract_order_counterexample :
    extractFunctionNames
        "export const a = () => 1\nexport function b() \x7b return 2; \x7d" =
      ["b", "a"] ∧
    extractFunctionNames
        "export const a = () => 1\nexport function b() \x7b return 2; \x7d" ≠
      ["a", "b"] ∧
    List.isPrefixOf ("export const a".data)
        ("export const a = () => 1\nexport function b() \x7b return 2; \x7d".data) =
      true :=
  ⟨by decide, by decide, by decide⟩

theorem splitFirst_some {pat l a b : List Char}
    (h : splitFirst pat l = some (a, b)) : l = a ++ pat ++ b := by
  induction l generalizing a b with
  | nil =>
    simp only [splitFirst, Option.map_eq_some'] at h
    obtain ⟨r, hr, heq⟩ := h
    cases heq
    simpa using dropLit_some hr
  | cons c rest ih =>
    simp only [splitFirst] at h
    cases hd : dropLit pat (c :: rest) with
    | some r =>
      rw [hd] at h
      simp only [Option.some.injEq, Prod.mk.injEq] at h
      rw [← h.1, ← h.2]
      simpa using dropLit_some hd
    | none =>
      rw [hd] at h
      simp only [Option.map_eq_some'] at h
      obtain ⟨⟨a', b'⟩, hs, heq⟩ := h
      cases heq
      simp [ih hs]

theorem splitFirst_none {pat l : List Char} (h : splitFirst pat l = none) :
    ∀ a b, l ≠ a ++ pat ++ b := by
  induction l with
  | nil =>
    intro a b hl
    simp only [splitFirst, Option.map_eq_none'] at h
    have ha : a = [] ∧ pat = [] ∧ b = [] := by
      have h1 := List.append_eq_nil.mp hl.symm
      have h2 := List.append_eq_nil.mp h1.1
      exact ⟨h2.1, h2.2, h1.2⟩
    rw [ha.2.1] at h
    simp [dropLit] at h
  | cons c rest ih =>
    intro a b hl
    simp only [splitFirst] at h
    cases hd : dropLit pat (c :: rest) with
    | some r =>
      rw [hd] at h
      cases h
    | none =>
      rw [hd] at h
      simp only [Option.map_eq_none'] at h
      cases a with
      | nil =>
        have : dropLit pat (c :: rest) = some b := by
          have hl' : c :: rest = pat ++ b := by simpa using hl
          rw [hl']
          exact dropLit_self pat b
        rw [this] at hd
        cases hd
      | cons c2 a2 =>
        have hrest : rest = a2 ++ pat ++ b := by
          have := hl
          simp only [List.cons_append, List.append_assoc, List.cons.injEq] at this
          simpa [List.append_assoc] using this.2
        exact ih h _ _ hrest

theorem splitFirst_first {pat l a b : List Char}
    (h : splitFirst pat l = some (a, b)) :
    ∀ a' b', l = a' ++ pat ++ b' → a.length ≤ a'.length := by
  induction l generalizing a b with
  | nil =>
    simp only [splitFirst, Option.map_eq_some'] at h
    obtain ⟨r, hr, heq⟩ := h
    cases heq
    intro a' b' hl
    simp
  | cons c rest ih =>
    simp only [splitFirst] at h
    cases hd : dropLit pat (c :: rest) with
    | some r =>
      rw [hd] at h
      simp only [Option.some.injEq, Prod.mk.injEq] at h
      rw [← h.1]
      intro a' b' hl
      simp
    | none =>
      rw [hd] at h
      simp only [Option.map_eq_some'] at h
      obtain ⟨⟨a1, b1⟩, hs, heq⟩ := h
      cases heq
      intro a2 b2 hl
      cases a2 with
      | nil =>
        exfalso
        have : dropLit pat (c :: rest) = some b2 := by
          have hl' : c :: rest = pat ++ b2 := by simpa using hl
          rw [hl']
          exact dropLit_self pat b2
        rw [this] at hd
        cases hd
      | cons c2 a3 =>
        have hrest : rest = a3 ++ pat ++ b2 := by
          have := hl
          simp only [List.cons_append, List.append_assoc, List.cons.injEq] at this
          simpa [List.append_assoc] using this.2
        simp only [List.length_cons]
        exact Nat.succ_le_succ (ih hs _ _ hrest)

theorem splitLastOcc_some {pat l m b : List Char}
    (h : splitLastOcc pat l = some (m, b)) : l = m ++ pat ++ b := by
  induction l generalizing m b with
  | nil =>
    simp only [splitLastOcc, Option.map_eq_some'] at h
    obtain ⟨r, hr, heq⟩ := h
    cases heq
    simpa using dropLit_some hr
  | cons c rest ih =>
    simp only [splitLastOcc] at h
    cases hr : splitLastOcc pat rest with
    | some p =>
      obtain ⟨m0, b0⟩ := p
      rw [hr] at h
      simp only [Option.some.injEq, Prod.mk.injEq] at h
      rw [← h.1, ← h.2]
      simp [ih hr]
    | none =>
      rw [hr] at h
      simp only [Option.map_eq_some'] at h
      obtain ⟨r2, hd, heq⟩ := h
      cases heq
      simpa using dropLit_some hd

theorem splitLastOcc_none {pat l : List Char} (h : splitLastOcc pat l = none) :
    ∀ m b, l ≠ m ++ pat ++ b := by
  induction l with
  | nil =>
    intro m b hl
    simp only [splitLastOcc, Option.map_eq_none'] at h
    have ha : m = [] ∧ pat = [] ∧ b = [] := by
      have h1 := List.append_eq_nil.mp hl.symm
      have h2 := List.append_eq_nil.mp h1.1
      exact ⟨h2.1, h2.2, h1.2⟩
    rw [ha.2.1] at h
    simp [dropLit] at h
  | cons c rest ih =>
    intro m b hl
    simp only [splitLastOcc] at h
    cases hr : splitLastOcc pat rest with
    | some p =>
      rw [hr] at h
      cases h
    | none =>
      rw [hr] at h
      simp only [Option.map_eq_none'] at h
      cases m with
      | nil =>
        have : dropLit pat (c :: rest) = some b := by
          have hl' : c :: rest = pat ++ b := by simpa using hl
          rw [hl']
          exact dropLit_self pat b
        rw [this] at h
        cases h
      | cons c2 m2 =>
        have hrest : rest = m2 ++ pat ++ b := by
          have := hl
          simp only [List.cons_append, List.append_assoc, List.cons.injEq] at this
          simpa [List.append_assoc] using this.2
        exact ih hr _ _ hrest

theorem splitLastOcc_last {pat l m b : List Char}
    (h : splitLastOcc pat l = some (m, b)) :
    ∀ m' b', l = m' ++ pat ++ b' → m'.length ≤ m.length := by
  induction l generalizing m b with
  | nil =>
    intro m' b' hl
    have : m' = [] := (List.append_eq_nil.mp (List.append_eq_nil.mp hl.symm).1).1
    simp [this]
  | cons c rest ih =>
    simp only [splitLastOcc] at h
    cases hr : splitLastOcc pat rest with
    | some p =>
      obtain ⟨m0, b0⟩ := p
      rw [hr] at h
      simp only [Option.some.injEq, Prod.mk.injEq] at h
      intro m' b' hl
      rw [← h.1]
      cases m' with
      | nil => simp
      | cons c2 m2 =>
        have hrest : rest = m2 ++ pat ++ b' := by
          have := hl
          simp only [List.cons_append, List.append_assoc, List.cons.injEq] at this
          simpa [List.append_assoc] using this.2
        simp only [List.length_cons]
        exact Nat.succ_le_succ (ih hr _ _ hrest)
    | none =>
      rw [hr] at h
      simp only [Option.map_eq_some'] at h
      obtain ⟨r2, hd, heq⟩ := h
      cases heq
      intro m' b' hl
      cases m' with
      | nil => simp
      | cons c2 m2 =>
        exfalso
        have hrest : rest = m2 ++ pat ++ b' := by
          have := hl
          simp only [List.cons_append, List.append_assoc, List.cons.injEq] at this
          simpa [List.append_assoc] using this.2
        exact splitLastOcc_none hr _ _ hrest

theorem suffix_peel {u w : List Char} (R : List Char) (h : u <:+ R ++ w)
    (hl : u.length ≤ w.length) : u <:+ w := by
  induction R with
  | nil => exact h
  | cons c R ih =>
    apply ih
    obtain ⟨p, hp⟩ := h
    cases p with
    | nil =>
      exfalso
      have hlen := congrArg List.length hp
      simp [List.length_append] at hlen
      omega
    | cons c2 p2 =>
      simp only [List.cons_append, List.cons.injEq] at hp
      exact ⟨p2, hp.2⟩

theorem findMarker_some {s m : List Char} (h : findMarker s = some m) :
    ∃ a b, s = a ++ RMARK ++ m ++ EMARK ++ b ∧ m ≠ [] := by
  simp only [findMarker, Option.bind_eq_bind, Option.bind_eq_some] at h
  obtain ⟨⟨a0, t⟩, h1, ⟨m0, b0⟩, h2, h3⟩ := h
  by_cases he : m0.isEmpty
  · rw [if_pos he] at h3
    cases h3
  · rw [if_neg he] at h3
    simp only [Option.pure_def, Option.some.injEq] at h3
    subst h3
    have h2' : splitLastOcc EMARK t = some (m0, b0) := h2
    refine ⟨a0, b0, ?_, by simpa using he⟩
    rw [splitFirst_some h1, splitLastOcc_some h2']
    simp [List.append_assoc]

theorem findMarker_none {s : List Char} (h : findMarker s = none) :
    ¬ ∃ a m b, s = a ++ RMARK ++ m ++ EMARK ++ b ∧ m ≠ [] := by
  rintro ⟨a, m, b, hs, hm⟩
  simp only [findMarker, Option.bind_eq_bind] at h
  have hsr : s = a ++ RMARK ++ (m ++ EMARK ++ b) := by
    rw [hs]
    simp [List.append_assoc]
  cases h1 : splitFirst RMARK s with
  | none => exact splitFirst_none h1 _ _ hsr
  | some p =>
    obtain ⟨a0, t⟩ := p
    rw [h1] at h
    simp only [Option.some_bind] at h
    have hs0 : s = a0 ++ RMARK ++ t := splitFirst_some h1
    have hfirst : a0.length ≤ a.length := splitFirst_first h1 _ _ hsr
    have hlen : a0.length + RMARK.length + t.length =
        a.length + RMARK.length + (m.length + EMARK.length + b.length) := by
      have hc := congrArg List.length hs0
      rw [hsr] at hc
      simp only [List.length_append] at hc
      omega
    have hsub : (m ++ EMARK ++ b) <:+ t := by
      apply suffix_peel (a0 ++ RMARK)
      · rw [List.append_assoc, ← hs0, hsr]
        exact ⟨a ++ RMARK, by simp [List.append_assoc]⟩
      · simp only [List.length_append]
        omega
    obtain ⟨p2, hp2⟩ := hsub
    have ht : t = (p2 ++ m) ++ EMARK ++ b := by
      rw [← hp2]
      simp [List.append_assoc]
    cases h2 : splitLastOcc EMARK t with
    | none => exact splitLastOcc_none h2 _ _ ht
    | some q =>
      obtain ⟨m0, b0⟩ := q
      rw [h2] at h
      simp only [Option.some_bind] at h
      by_cases he : m0.isEmpty
      · have hle : (p2 ++ m).length ≤ m0.length := splitLastOcc_last h2 _ _ ht
        have : m0 = [] := by
          cases m0 with
          | nil => rfl
          | cons x xs => simp [List.isEmpty] at he
        rw [this] at hle
        simp [List.length_append] at hle
        exact hm hle.2
      · rw [if_neg he] at h
        cases h

/-- The log-pump loop, declaratively: the final stdout buffer is the initial
buffer followed by the concatenated stdout-channel chunk texts; the forwarded
entries are exactly the marker-free chunks, in order, stamped from `k`; the
final clock counter advanced once per forwarded chunk. -/
theorem pumpLogs_spec (now : Nat → Nat) :
    ∀ (logs : List LogChunk) (acc : String) (k : Nat),
      (pumpLogs now logs acc k).1.data =
        acc.data ++ ((logs.filter (fun c => c.stream == Channel.stdout)).map
          (fun c => c.data.data)).flatten ∧
      (pumpLogs now logs acc k).2.1 =
        stampFrom now k (logs.filter (fun c => !(occursIn RMARK c.data.data))) ∧
      (pumpLogs now logs acc k).2.2 =
        k + (logs.filter (fun c => !(occursIn RMARK c.data.data))).length := by
  intro logs
  induction logs with
  | nil =>
    intro acc k
    simp [pumpLogs, stampFrom]
  | cons log rest ih =>
    intro acc k
    by_cases hmk : occursIn RMARK log.data.data = true
    · simp only [pumpLogs, if_pos hmk]
      obtain ⟨ih1, ih2, ih3⟩ :=
        ih (if log.stream = Channel.stdout then acc ++ log.data else acc) k
      refine ⟨?_, ?_, ?_⟩
      · rw [ih1]
        by_cases hst : log.stream = Channel.stdout
        · rw [if_pos hst, List.filter_cons_of_pos (by simp [hst])]
          simp [List.append_assoc]
        · rw [if_neg hst, List.filter_cons_of_neg (by simp [hst])]
      · rw [ih2, List.filter_cons_of_neg (by simp [hmk])]
      · rw [ih3, List.filter_cons_of_neg (by simp [hmk])]
    · simp only [pumpLogs, if_neg hmk]
      obtain ⟨ih1, ih2, ih3⟩ :=
        ih (if log.stream = Channel.stdout then acc ++ log.data else acc) (k + 1)
      refine ⟨?_, ?_, ?_⟩
      · rw [ih1]
        by_cases hst : log.stream = Channel.stdout
        · rw [if_pos hst, List.filter_cons_of_pos (by simp [hst])]
          simp [List.append_assoc]
        · rw [if_neg hst, List.filter_cons_of_neg (by simp [hst])]
      · rw [ih2, List.filter_cons_of_pos (by simp [hmk]), stampFrom]
      · rw [ih3, List.filter_cons_of_pos (by simp [hmk])]
        simp only [List.length_cons]
        omega

theorem markerLine_contains (json : String) :
    occursIn RMARK (markerLine json).data = true := by
  apply occursIn_of_isPrefix
  refine ⟨json.data ++ ("__END_RESULT__".data), ?_⟩
  simp [markerLine, RMARK, List.append_assoc]

theorem countP_log_events (l : List LogEntry) :
    (l.map (fun e => SSEEvent.log e.stream e.data e.timestamp)).countP isTerminal = 0 := by
  induction l with
  | nil => rfl
  | cons e l ih => simp [List.countP_cons, isTerminal, ih]

theorem carriesErrorTrue_flag {v : JValue} (h : carriesErrorTrue v = true) :
    isTruthy v = true ∧ isObjectType v = true ∧ hasErrorKey v = true := by
  cases v with
  | obj fields =>
    refine ⟨rfl, rfl, ?_⟩
    simp only [carriesErrorTrue, List.any_eq_true] at h
    obtain ⟨f, hf, hp⟩ := h
    simp only [hasErrorKey, List.any_eq_true]
    rw [Bool.and_eq_true] at hp
    exact ⟨f, hf, hp.1⟩
  | null => simp [carriesErrorTrue] at h
  | bool b => simp [carriesErrorTrue] at h
  | num n => simp [carriesErrorTrue] at h
  | str s => simp [carriesErrorTrue] at h
  | arr xs => simp [carriesErrorTrue] at h

/-- **C6**: when none of the three export forms matches the submitted source
(so the extraction scans return the empty manifest), `generateWorkerScript`
fails fast with the "no exported functions found" error and produces no
script, hence no execution session can be created from it. -/
theorem no_exports_generation_fails (userCode : String)
    (h : extractFunctionNames userCode = []) :
    generateWorkerScript userCode = .error noExportsMsg ∧
      occursIn ("No exported functions found".data) noExportsMsg.data = true := by
  constructor
  · simp [generateWorkerScript, h]
  · decide

/-- Witness for C6: a source text with a non-exported function yields no
names and generation fails. -/
theorem no_exports_generation_fails_witness :
    extractFunctionNames "function f(p) \x7b return p; \x7d" = [] ∧
      generateWorkerScript "function f(p) \x7b return p; \x7d" = .error noExportsMsg :=
  ⟨by decide, (no_exports_generation_fails _ (by decide)).1⟩

/-- **C1**: invoking the generated script with a registered function name and
a parseable payload writes exactly one result-marker line to stdout, and that
line is the sole conveyor of the outcome: on success it is
`__RESULT__<json>__END_RESULT__` around the serialized return value, with no
stderr output and exit code 0; on a thrown error it carries the serialized
`{ __error: true, message }` envelope and the process exits non-zero (code 1). -/
theorem worker_script_marker_protocol
    (registry : List (String × (JValue → Except String JValue)))
    (protoCall : String → JValue → Except String JValue)
    (parse : String → Except String JValue) (name payloadJson : String)
    (f : JValue → Except String JValue) (p : JValue)
    (hname : ¬ name = "")
    (hlook : List.lookup name registry = some f)
    (hpj : ¬ payloadJson = "")
    (hparse : parse payloadJson = .ok p) :
    (∀ v, f p = .ok v →
      workerMain registry protoCall parse (some name) (some payloadJson) =
        { stdoutLines := [markerLine (stringify v)], stderrLines := [], exitCode := 0 }) ∧
    (∀ msg, f p = .error msg →
      workerMain registry protoCall parse (some name) (some payloadJson) =
        { stdoutLines := [markerLine (stringify (errorEnvelope msg))],
          stderrLines := ["Function error: " ++ msg], exitCode := 1 }) ∧
    (workerMain registry protoCall parse (some name) (some payloadJson)).stdoutLines.countP
        (fun l => occursIn RMARK l.data) = 1 := by
  have hmain : workerMain registry protoCall parse (some name) (some payloadJson) =
      match f p with
      | .ok result =>
        { stdoutLines := [markerLine (stringify result)], stderrLines := [], exitCode := 0 }
      | .error msg =>
        { stdoutLines := [markerLine (stringify (errorEnvelope msg))],
          stderrLines := ["Function error: " ++ msg], exitCode := 1 } := by
    simp only [workerMain, Option.getD_some, if_neg hpj, if_neg hname, hlook, hparse]
  refine ⟨?_, ?_, ?_⟩
  · intro v hv
    rw [hmain, hv]
  · intro msg hmsg
    rw [hmain, hmsg]
  · rw [hmain]
    cases hf : f p with
    | ok v => simp [List.countP_cons, markerLine_contains]
    | error msg => simp [List.countP_cons, markerLine_contains]

/-- Witness for C1: the `echo` function invoked on the payload `{"a":1}`
yields exactly the marker line around the serialized payload and exit 0. -/
theorem worker_script_marker_protocol_witness :
    workerMain (("echo", fun q => Except.ok q) :: [])
        (fun _ _ => Except.error "builtin")
        (fun s => if s = "\x7b\"a\":1\x7d" then Except.ok (JValue.obj (("a", JValue.num 1) :: []))
          else Except.error "bad")
        (some "echo") (some "\x7b\"a\":1\x7d") =
      { stdoutLines := [markerLine (stringify (JValue.obj (("a", JValue.num 1) :: [])))],
        stderrLines := [], exitCode := 0 } :=
  (worker_script_marker_protocol (("echo", fun q => Except.ok q) :: [])
    (fun _ _ => Except.error "builtin")
    (fun s => if s = "\x7b\"a\":1\x7d" then Except.ok (JValue.obj (("a", JValue.num 1) :: []))
      else Except.error "bad")
    "echo" "\x7b\"a\":1\x7d" (fun q => Except.ok q) (JValue.obj (("a", JValue.num 1) :: []))
    (by decide) rfl (by decide) (by simp)).1 _ rfl

/-- **C7 (counterexample)**: the claim fails for an unregistered name that
`Object.prototype` provides: the registry is an object literal, so
`functions[functionName]` for `toString` (not in the registry) resolves to
the inherited `Object.prototype.toString`, the `!func` guard does not fire,
and the script calls the built-in and prints a success marker line with exit
code 0 and an empty stderr — no listing, a zero exit code, and a marker line,
the opposite of the claim on all three counts.  (`protoCall` is instantiated
with the built-in's actual behavior in Node, returning the string
`[object global]`.) -/
theorem unknown_function_prototype_counterexample :
    List.lookup "toString" (("echo", fun q => Except.ok q) ::
        ([] : List (String × (JValue → Except String JValue)))) = none ∧
    workerMain (("echo", fun q => Except.ok q) :: [])
        (fun _ _ => Except.ok (JValue.str "[object global]"))
        (fun _ => Except.ok (JValue.obj []))
        (some "toString") (some "\x7b\x7d") =
      { stdoutLines := [markerLine (stringify (JValue.str "[object global]"))],
        stderrLines := [], exitCode := 0 } :=
  ⟨rfl, rfl⟩

/-- **C7 (amended)**: the generated script invoked without a function name
prints the usage line on stderr and exits with code 1; invoked with a name
that is absent from the registry and is not one of the property names the
object-literal registry inherits from `Object.prototype` (`constructor`,
`hasOwnProperty`, ..., `toString`, `valueOf`, the Annex B accessors and
`__proto__`), it prints the listing of available names on stderr, exits with
the non-zero code 1, and emits no line at all — in particular no
result-marker line — on stdout.  For an inherited prototype name the `!func`
guard does not fire and the script instead calls the built-in (see the
counterexample). -/
theorem unknown_function_cli_errors
    (registry : List (String × (JValue → Except String JValue)))
    (protoCall : String → JValue → Except String JValue)
    (parse : String → Except String JValue) (argv3 : Option String) :
    workerMain registry protoCall parse none argv3 =
      { stdoutLines := [],
        stderrLines := ["Usage: node worker.js <functionName> [payloadJson]"],
        exitCode := 1 } ∧
    (∀ name, ¬ name = "" → List.lookup name registry = none →
      name ∉ objectProtoKeys →
      workerMain registry protoCall parse (some name) argv3 =
        { stdoutLines := [],
          stderrLines := ["Function \x27" ++ name ++ "\x27 not found. Available: " ++
            String.intercalate ", " (registry.map (fun fp => fp.1))],
          exitCode := 1 }) := by
  constructor
  · simp [workerMain]
  · intro name hname hlook hproto
    simp [workerMain, hname, hlook, hproto]

/-- Witness for the amended C7: invoking the unknown, non-prototype name
`nope` against a registry holding only `echo`. -/
theorem unknown_function_cli_errors_witness :
    workerMain (("echo", fun q => Except.ok q) :: [])
        (fun _ _ => Except.error "builtin") (fun _ => Except.error "x")
        (some "nope") none =
      { stdoutLines := [],
        stderrLines := ["Function \x27nope\x27 not found. Available: " ++
          String.intercalate ", "
            (((("echo", fun q => Except.ok q)) :: []).map
              (fun fp : String × (JValue → Except String JValue) => fp.1))],
        exitCode := 1 } :=
  (unknown_function_cli_errors _ _ _ _).2 "nope" (by decide) rfl (by decide)

/-- **C10**: with a registered name but a payload rejected by `JSON.parse`,
the failure lands in the same `catch` handler as a thrown user error: the
script prints the marker line carrying `{ __error: true, message }` with the
parse error message and exits with code 1 — observably identical to invoking
a registered function that throws the same message. -/
theorem payload_parse_error_as_user_error
    (registry : List (String × (JValue → Except String JValue)))
    (protoCall : String → JValue → Except String JValue)
    (parse : String → Except String JValue) (name payloadJson : String)
    (f : JValue → Except String JValue) (msg : String)
    (hname : ¬ name = "")
    (hlook : List.lookup name registry = some f)
    (hpj : ¬ payloadJson = "")
    (hparse : parse payloadJson = .error msg) :
    workerMain registry protoCall parse (some name) (some payloadJson) =
      { stdoutLines := [markerLine (stringify (errorEnvelope msg))],
        stderrLines := ["Function error: " ++ msg], exitCode := 1 } ∧
    workerMain registry protoCall parse (some name) (some payloadJson) =
      workerMain ((name, fun _ => Except.error msg) :: []) protoCall
        (fun _ => Except.ok JValue.null) (some name) (some payloadJson) := by
  have h1 : workerMain registry protoCall parse (some name) (some payloadJson) =
      { stdoutLines := [markerLine (stringify (errorEnvelope msg))],
        stderrLines := ["Function error: " ++ msg], exitCode := 1 } := by
    simp only [workerMain, Option.getD_some, if_neg hpj, if_neg hname, hlook, hparse]
  refine ⟨h1, ?_⟩
  rw [h1]
  simp [workerMain, hname, hpj, List.lookup]

/-- Witness for C10: a malformed payload surfaces as an error envelope with
exit code 1. -/
theorem payload_parse_error_as_user_error_witness :
    workerMain (("echo", fun q => Except.ok q) :: [])
        (fun _ _ => Except.error "builtin")
        (fun _ => Except.error "Unexpected token n in JSON")
        (some "echo") (some "notjson") =
      { stdoutLines := [markerLine (stringify (errorEnvelope "Unexpected token n in JSON"))],
        stderrLines := ["Function error: " ++ "Unexpected token n in JSON"], exitCode := 1 } :=
  (payload_parse_error_as_user_error (("echo", fun q => Except.ok q) :: [])
    (fun _ _ => Except.error "builtin")
    (fun _ => Except.error "Unexpected token n in JSON") "echo" "notjson"
    (fun q => Except.ok q) "Unexpected token n in JSON"
    (by decide) rfl (by decide) rfl).1

/-- **C3**: during an invocation, every received log chunk whose text
contains `__RESULT__` is suppressed from the caller-visible stream, on either
channel; every other chunk is forwarded exactly once — in arrival order,
tagged with its originating channel and stamped with the capture-time clock
read — which is precisely the `stampFrom` of the marker-free chunks. -/
theorem log_filtering_forwarding (env : InvokeEnv) (logs : List LogChunk)
    (hcreate : env.createResult = .ok ()) (hrun : env.runCommand = .ok logs) :
    (invokeFunction env).forwarded =
      stampFrom env.now 1 (logs.filter (fun c => !(occursIn RMARK c.data.data))) := by
  obtain ⟨h1, h2, h3⟩ := pumpLogs_spec env.now logs "" 1
  simp only [invokeFunction, hcreate, hrun]
  cases hw : env.waitResult with
  | error e => simpa using h2
  | ok u =>
    cases hfm : findMarker (pumpLogs env.now logs "" 1).1.data with
    | none => simpa [hfm] using h2
    | some captured =>
      cases hp : env.parse (String.mk captured) with
      | error e => simpa [hfm, hp] using h2
      | ok v => simpa [hfm, hp] using h2

/-- Witness for C3: one plain stdout chunk is forwarded trimmed and
timestamped, a stderr chunk containing `__RESULT__` is suppressed. -/
theorem log_filtering_forwarding_witness :
    (invokeFunction
      { createResult := .ok (),
        runCommand := .ok ({ stream := Channel.stdout, data := "hello\n" } ::
          { stream := Channel.stderr, data := "x__RESULT__y" } :: []),
        waitResult := .ok (), parse := fun _ => Except.error "x",
        now := fun k => k }).forwarded =
      ({ stream := Channel.stdout, data := "hello", timestamp := 1 } : LogEntry) :: [] := by
  have h := log_filtering_forwarding
    { createResult := .ok (),
      runCommand := .ok ({ stream := Channel.stdout, data := "hello\n" } ::
        { stream := Channel.stderr, data := "x__RESULT__y" } :: []),
      waitResult := .ok (), parse := fun _ => Except.error "x",
      now := fun k => k }
    ({ stream := Channel.stdout, data := "hello\n" } ::
      { stream := Channel.stderr, data := "x__RESULT__y" } :: []) rfl rfl
  rw [h]
  rfl

/-- **C2**: after the process terminates, the accumulated stdout buffer — the
concatenation of the stdout-channel chunks, across line and chunk boundaries —
is scanned for `__RESULT__(...)__END_RESULT__`; when no marker decomposition
with a nonempty middle exists, the invocation fails with the error
"Function did not return a result" and no success result is returned; when
the scan captures a group, that group is parsed as JSON and returned together
with the measured duration. -/
theorem transport_marker_scan (env : InvokeEnv) (logs : List LogChunk)
    (hcreate : env.createResult = .ok ()) (hrun : env.runCommand = .ok logs)
    (hwait : env.waitResult = .ok ()) :
    ((¬ ∃ a m b, ((logs.filter (fun c => c.stream == Channel.stdout)).map
          (fun c => c.data.data)).flatten = a ++ RMARK ++ m ++ EMARK ++ b ∧ m ≠ []) →
      (invokeFunction env).outcome = .error "Function did not return a result") ∧
    (∀ captured, findMarker (((logs.filter (fun c => c.stream == Channel.stdout)).map
          (fun c => c.data.data)).flatten) = some captured →
      (invokeFunction env).outcome = (env.parse (String.mk captured)).map
        (fun v => (⟨v, env.now (1 + (logs.filter
          (fun c => !(occursIn RMARK c.data.data))).length) - env.now 0⟩ : InvokeResult))) := by
  obtain ⟨h1, h2, h3⟩ := pumpLogs_spec env.now logs "" 1
  have h1' : (pumpLogs env.now logs "" 1).1.data =
      ((logs.filter (fun c => c.stream == Channel.stdout)).map
        (fun c => c.data.data)).flatten := by
    simpa using h1
  constructor
  · intro hno
    have hfm : findMarker (pumpLogs env.now logs "" 1).1.data = none := by
      cases hf : findMarker (pumpLogs env.now logs "" 1).1.data with
      | none => rfl
      | some m =>
        rw [h1'] at hf
        obtain ⟨a, b, hdec, hm⟩ := findMarker_some hf
        exact absurd ⟨a, m, b, hdec, hm⟩ hno
    simp [invokeFunction, hcreate, hrun, hwait, hfm]
  · intro captured hform
    have hfm : findMarker (pumpLogs env.now logs "" 1).1.data = some captured := by
      rw [h1']
      exact hform
    cases hp : env.parse (String.mk captured) with
    | error e => simp [invokeFunction, hcreate, hrun, hwait, hfm, hp, Except.map, h3]
    | ok v => simp [invokeFunction, hcreate, hrun, hwait, hfm, hp, Except.map, h3]

/-- Witness for C2: a single stdout chunk containing the marker around
`null` decodes to the parsed value with the measured duration. -/
theorem transport_marker_scan_witness :
    (invokeFunction
      { createResult := .ok (),
        runCommand := .ok
          ({ stream := Channel.stdout, data := "__RESULT__null__END_RESULT__\n" } :: []),
        waitResult := .ok (),
        parse := fun s => if s = "null" then Except.ok JValue.null else Except.error "bad",
        now := fun k => k }).outcome =
      Except.ok { result := JValue.null, duration := 1 } := by
  have h := (transport_marker_scan
    { createResult := .ok (),
      runCommand := .ok
        ({ stream := Channel.stdout, data := "__RESULT__null__END_RESULT__\n" } :: []),
      waitResult := .ok (),
      parse := fun s => if s = "null" then Except.ok JValue.null else Except.error "bad",
      now := fun k => k }
    ({ stream := Channel.stdout, data := "__RESULT__null__END_RESULT__\n" } :: [])
    rfl rfl rfl).2 ("null".data) (by decide)
  rw [h]
  rfl

/-- **C8**: the sandbox created for an invocation is stopped on every exit
path of `invokeFunction` — successful decode, missing marker, decode failure,
wait failure or launch failure, all covered by the `finally` — and a sandbox
created for snapshotting whose file write or snapshot step fails is stopped
before the error propagates. -/
theorem sandbox_teardown_all_paths :
    (∀ env : InvokeEnv, env.createResult = .ok () → (invokeFunction env).stopped = true) ∧
    (∀ env : SnapshotEnv, env.createResult = .ok () →
      ((∃ e, env.writeResult = .error e) ∨ (∃ e, env.snapshotResult = .error e)) →
      (createWorkerSnapshot env).stopped = true ∧
        ∃ e, (createWorkerSnapshot env).outcome = .error e) := by
  constructor
  · intro env hc
    simp [invokeFunction, hc]
  · intro env hc hfail
    cases hw : env.writeResult with
    | error e => simp [createWorkerSnapshot, hc, hw]
    | ok u =>
      cases hs : env.snapshotResult with
      | error e => simp [createWorkerSnapshot, hc, hw, hs]
      | ok sid =>
        exfalso
        rcases hfail with ⟨e, he⟩ | ⟨e, he⟩
        · rw [hw] at he
          cases he
        · rw [hs] at he
          cases he

/-- Witness for C8: a failed launch still stops the invocation sandbox, and a
failed file write stops the snapshot sandbox. -/
theorem sandbox_teardown_all_paths_witness :
    (invokeFunction
      { createResult := .ok (), runCommand := .error "launch failed",
        waitResult := .ok (), parse := fun _ => Except.error "x",
        now := fun _ => 0 }).stopped = true ∧
    (createWorkerSnapshot
      { createResult := .ok (), writeResult := .error "disk full",
        snapshotResult := .ok "snap", expiresAt := 0 }).stopped = true :=
  ⟨sandbox_teardown_all_paths.1 _ rfl,
   (sandbox_teardown_all_paths.2 _ rfl (Or.inl ⟨"disk full", rfl⟩)).1⟩

/-- **C9**: the SSE stream of an invocation consists of the forwarded log
events, in arrival order, followed by exactly one terminal event — never
none, never two: a `result` event carrying the value and duration when the
invocation returned a value without an `__error` key, an `error` event when
the returned value carries `__error: true` or when the transport threw. -/
theorem sse_single_terminal_event (env : InvokeEnv) :
    ∃ t, handleSSEInvocation env =
        ((invokeFunction env).forwarded.map
          (fun l => SSEEvent.log l.stream l.data l.timestamp)) ++ [t] ∧
      isTerminal t = true ∧
      (handleSSEInvocation env).countP isTerminal = 1 ∧
      (∀ r, (invokeFunction env).outcome = .ok r → hasErrorKey r.result = false →
        t = SSEEvent.result r.result r.duration) ∧
      (∀ r, (invokeFunction env).outcome = .ok r → carriesErrorTrue r.result = true →
        t = SSEEvent.errorEv (envelopeMessage r.result)) ∧
      (∀ e, (invokeFunction env).outcome = .error e →
        t = SSEEvent.errorEv (some (.str e))) := by
  cases ho : (invokeFunction env).outcome with
  | ok r =>
    by_cases hflag : (isTruthy r.result && isObjectType r.result && hasErrorKey r.result) = true
    · refine ⟨SSEEvent.errorEv (envelopeMessage r.result), ?_, rfl, ?_, ?_, ?_, ?_⟩
      · simp [handleSSEInvocation, ho, hflag]
      · have hEq : handleSSEInvocation env =
            ((invokeFunction env).forwarded.map
              (fun l => SSEEvent.log l.stream l.data l.timestamp)) ++
              [SSEEvent.errorEv (envelopeMessage r.result)] := by
          simp [handleSSEInvocation, ho, hflag]
        rw [hEq, List.countP_append, countP_log_events]
        rfl
      · intro r' hr' hkey
        injection hr' with hh
        subst hh
        rw [hkey] at hflag
        simp at hflag
      · intro r' hr' _
        injection hr' with hh
        subst hh
        rfl
      · intro e he
        exact Except.noConfusion he
    · refine ⟨SSEEvent.result r.result r.duration, ?_, rfl, ?_, ?_, ?_, ?_⟩
      · simp [handleSSEInvocation, ho, hflag]
      · have hEq : handleSSEInvocation env =
            ((invokeFunction env).forwarded.map
              (fun l => SSEEvent.log l.stream l.data l.timestamp)) ++
              [SSEEvent.result r.result r.duration] := by
          simp [handleSSEInvocation, ho, hflag]
        rw [hEq, List.countP_append, countP_log_events]
        rfl
      · intro r' hr' _
        injection hr' with hh
        subst hh
        rfl
      · intro r' hr' hcarr
        injection hr' with hh
        subst hh
        obtain ⟨hT, hO, hK⟩ := carriesErrorTrue_flag hcarr
        rw [hT, hO, hK] at hflag
        simp at hflag
      · intro e he
        exact Except.noConfusion he
  | error e0 =>
    refine ⟨SSEEvent.errorEv (some (.str e0)), ?_, rfl, ?_, ?_, ?_, ?_⟩
    · simp [handleSSEInvocation, ho]
    · have hEq : handleSSEInvocation env =
          ((invokeFunction env).forwarded.map
            (fun l => SSEEvent.log l.stream l.data l.timestamp)) ++
            [SSEEvent.errorEv (some (.str e0))] := by
        simp [handleSSEInvocation, ho]
      rw [hEq, List.countP_append, countP_log_events]
      rfl
    · intro r' hr' _
      exact Except.noConfusion hr'
    · intro r' hr' _
      exact Except.noConfusion hr'
    · intro e he
      injection he with hh
      subst hh
      rfl

/-- Witness for C9: a failed launch yields exactly one terminal event on the
stream. -/
theorem sse_single_terminal_event_witness :
    (handleSSEInvocation
      { createResult := .ok (), runCommand := .error "launch failed",
        waitResult := .ok (), parse := fun _ => Except.error "x",
        now := fun _ => 0 }).countP isTerminal = 1 := by
  obtain ⟨t, h1, h2, h3, h4, h5, h6⟩ := sse_single_terminal_event
    { createResult := .ok (), runCommand := .error "launch failed",
      waitResult := .ok (), parse := fun _ => Except.error "x",
      now := fun _ => 0 }
  exact h3

end WorkersDemo
